import Mathlib

/-! # F&O dashboard: normalisation, classification and aggregation layer

A shallow embedding of `dashboard/src/utils.js`, the row normaliser and the
dataset index of `dashboard/src/App.js`, the `stats` computation of
`dashboard/src/components/MarketSummary.js` and the helper `changePct` of
`dashboard/src/components/StockDetail.js`, together with the properties
stated about them.

JavaScript numbers are modelled by `JSNum`: a finite double is idealised as
the exact rational it denotes, and `NaN` is kept as a separate value because
the code branches on it (`Number(x) || 0`, comparisons with `NaN`).  The
infinities and the sign of zero are not modelled.  Sums, differences and
comparisons of the table's values are exact; in the formatters and in
`changePct` every quotient, difference and product is rounded to the nearest
double by `fl` before it is formatted, as the runtime does.
-/

namespace FandO

/-! ## JavaScript numbers -/

/-- A JavaScript number: `NaN` or a finite value. -/
inductive JSNum where
  | nan : JSNum
  | fin (q : ℚ) : JSNum
deriving DecidableEq

namespace JSNum

/-- The JavaScript comparison `a > b`; false as soon as one side is `NaN`. -/
def gt : JSNum → JSNum → Bool
  | fin a, fin b => decide (b < a)
  | _, _ => false

/-- The JavaScript comparison `a < b`; false as soon as one side is `NaN`. -/
def lt : JSNum → JSNum → Bool
  | fin a, fin b => decide (a < b)
  | _, _ => false

/-- The JavaScript comparison `a <= b`; false as soon as one side is `NaN`. -/
def le : JSNum → JSNum → Bool
  | fin a, fin b => decide (a ≤ b)
  | _, _ => false

/-- The JavaScript comparison `a >= b`; false as soon as one side is `NaN`. -/
def ge : JSNum → JSNum → Bool
  | fin a, fin b => decide (b ≤ a)
  | _, _ => false

/-- The JavaScript sum `a + b`. -/
def add : JSNum → JSNum → JSNum
  | fin a, fin b => fin (a + b)
  | _, _ => nan

/-- The JavaScript difference `a - b`. -/
def sub : JSNum → JSNum → JSNum
  | fin a, fin b => fin (a - b)
  | _, _ => nan

/-- Truthiness of a number: every number except `0` and `NaN` is truthy. -/
def truthy : JSNum → Bool
  | fin q => decide (q ≠ 0)
  | nan => false

/-- The expression `x || 0` for a number `x`. -/
def orZero (x : JSNum) : JSNum :=
  if x.truthy then x else fin 0

/-- The predicate `isNaN`. -/
def isNaN : JSNum → Bool
  | nan => true
  | fin _ => false

end JSNum

/-- Failure of an arithmetic step that has no finite result. -/
inductive NumError where
  | divByZero : NumError
deriving DecidableEq

/-- The quotient `a / b`, checked: a zero divisor is reported instead of
producing a value outside the finite model. -/
def JSNum.div : JSNum → JSNum → Except NumError JSNum
  | .fin a, .fin b => if b = 0 then .error .divByZero else .ok (.fin (a / b))
  | _, _ => .ok .nan

/-! ## Classifier (`utils.js`) -/

/-- The literal `1.5`. -/
def t15 : JSNum := .fin (15 / 10)
/-- The literal `1.3`. -/
def t13 : JSNum := .fin (13 / 10)
/-- The literal `1.0`. -/
def t10 : JSNum := .fin 1
/-- The literal `0.7`. -/
def t07 : JSNum := .fin (7 / 10)

/-- The function `getPCRColor` of `utils.js`; `none` is `null`/`undefined`. -/
def getPCRColor : Option JSNum → String
  | none => ""
  | some pcr =>
    if pcr.gt t13 then "pcr-bearish"
    else if pcr.gt t10 then "pcr-mod-bearish"
    else if pcr.gt t07 then "pcr-neutral"
    else "pcr-bullish"

/-- The function `getSentimentLabel` of `utils.js`. -/
def getSentimentLabel : Option JSNum → String
  | none => ""
  | some pcr =>
    if pcr.gt t13 then "Bearish"
    else if pcr.gt t10 then "Mod Bear"
    else if pcr.gt t07 then "Neutral"
    else "Bullish"

/-- The object returned by `getSentimentFull`; `sublabel` is absent on most
branches. -/
structure Sentiment where
  label : String
  sublabel : Option String
  color : String
  bg : String
deriving DecidableEq

/-- The function `getSentimentFull` of `utils.js`. -/
def getSentimentFull : Option JSNum → Sentiment
  | none => { label := "N/A", sublabel := none, color := "text-slate-400", bg := "bg-slate-800" }
  | some pcr =>
    if pcr.gt t15 then
      { label := "Strong Bearish", sublabel := some "Contrarian Bullish?",
        color := "text-red-400", bg := "bg-red-500/10" }
    else if pcr.gt t13 then
      { label := "Strong Bearish", sublabel := none, color := "text-red-400", bg := "bg-red-500/10" }
    else if pcr.gt t10 then
      { label := "Moderate Bearish", sublabel := none,
        color := "text-orange-400", bg := "bg-orange-500/10" }
    else if pcr.gt t07 then
      { label := "Neutral", sublabel := none, color := "text-yellow-400", bg := "bg-yellow-500/10" }
    else
      { label := "Bullish", sublabel := none, color := "text-emerald-400", bg := "bg-emerald-500/10" }

/-! ## Records and the row normaliser (`App.js`) -/

/-- A row as delivered by the CSV reader with `header: true`: column name and
cell text; a column missing from the row is absent from the list. -/
abbrev RawRow := List (String × String)

/-- The property access `row.k`: `none` is `undefined`. -/
def RawRow.field (row : RawRow) (k : String) : Option String :=
  row.lookup k

/-- A normalised row, as stored in `rawData`. -/
structure Record where
  Date : Option String
  Symbol : Option String
  CE_Volume : JSNum
  PE_Volume : JSNum
  CE_OI : JSNum
  PE_OI : JSNum
  CE_OI_Change : JSNum
  PE_OI_Change : JSNum
  CE_Turnover : JSNum
  PE_Turnover : JSNum
  CE_Contracts : JSNum
  PE_Contracts : JSNum
  PCR_OI : Option JSNum
  PCR_Volume : Option JSNum
deriving DecidableEq

/-- The call `Number(v)` for a cell `v`: `Number(undefined)` is `NaN`, and a
string goes through the string-to-number conversion `num`. -/
def toNumber (num : String → JSNum) : Option String → JSNum
  | none => .nan
  | some s => num s

/-- Truthiness of a cell: `undefined` and the empty string are falsy. -/
def cellTruthy : Option String → Bool
  | none => false
  | some s => s != ""

/-- The expression `Number(row.k) || 0` of the normaliser. -/
def numField (num : String → JSNum) (row : RawRow) (k : String) : JSNum :=
  (toNumber num (row.field k)).orZero

/-- The expression `row.k ? Number(row.k) : null` of the normaliser. -/
def pcrField (num : String → JSNum) (row : RawRow) (k : String) : Option JSNum :=
  if cellTruthy (row.field k) then some (toNumber num (row.field k)) else none

/-- The row mapper passed to `result.data.map` in `App.js`, for the typed
columns. -/
def normalize (num : String → JSNum) (row : RawRow) : Record :=
  { Date := row.field "Date"
    Symbol := row.field "Symbol"
    CE_Volume := numField num row "CE_Volume"
    PE_Volume := numField num row "PE_Volume"
    CE_OI := numField num row "CE_OI"
    PE_OI := numField num row "PE_OI"
    CE_OI_Change := numField num row "CE_OI_Change"
    PE_OI_Change := numField num row "PE_OI_Change"
    CE_Turnover := numField num row "CE_Turnover"
    PE_Turnover := numField num row "PE_Turnover"
    CE_Contracts := numField num row "CE_Contracts"
    PE_Contracts := numField num row "PE_Contracts"
    PCR_OI := pcrField num row "PCR_OI"
    PCR_Volume := pcrField num row "PCR_Volume" }

/-- The ten required numeric columns. -/
def numericColumns : List String :=
  ["CE_Volume", "PE_Volume", "CE_OI", "PE_OI", "CE_OI_Change", "PE_OI_Change",
   "CE_Turnover", "PE_Turnover", "CE_Contracts", "PE_Contracts"]

/-- Read a required numeric column of a normalised row by its name. -/
def Record.numeric (r : Record) (k : String) : JSNum :=
  if k = "CE_Volume" then r.CE_Volume
  else if k = "PE_Volume" then r.PE_Volume
  else if k = "CE_OI" then r.CE_OI
  else if k = "PE_OI" then r.PE_OI
  else if k = "CE_OI_Change" then r.CE_OI_Change
  else if k = "PE_OI_Change" then r.PE_OI_Change
  else if k = "CE_Turnover" then r.CE_Turnover
  else if k = "PE_Turnover" then r.PE_Turnover
  else if k = "CE_Contracts" then r.CE_Contracts
  else r.PE_Contracts

/-! ### A concrete string-to-number conversion

The normaliser is parametric in the conversion applied by `Number` to a
string.  The conversion below follows the ECMAScript grammar for decimal
literals (surrounding white space, optional sign, integer and fraction
digits, exponent) and is used to evaluate concrete rows; text that is not
such a literal converts to `NaN`. -/

/-- White space trimmed by the string-to-number conversion. -/
def isStrWhiteSpace (c : Char) : Bool :=
  c.toNat ∈ [9, 10, 11, 12, 13, 32, 160, 5760, 8232, 8233, 8239, 8287, 12288, 65279]
    || (8192 ≤ c.toNat && c.toNat ≤ 8202)

/-- Remove leading and trailing white space. -/
def trimWs (l : List Char) : List Char :=
  ((l.dropWhile isStrWhiteSpace).reverse.dropWhile isStrWhiteSpace).reverse

/-- Value of a decimal digit. -/
def digitVal (c : Char) : Option Nat :=
  if 48 ≤ c.toNat && c.toNat ≤ 57 then some (c.toNat - 48) else none

/-- Split off the longest prefix of decimal digits, most significant first. -/
def takeDigits : List Char → List Nat × List Char
  | [] => ([], [])
  | c :: l =>
    match digitVal c with
    | some d => let (ds, rest) := takeDigits l; (d :: ds, rest)
    | none => ([], c :: l)

/-- The natural number written by a digit sequence. -/
def natOfDigits (ds : List Nat) : Nat :=
  ds.foldl (fun n d => 10 * n + d) 0

/-- An optional exponent part that must reach the end of the text. -/
def parseExponent : List Char → Option Int
  | [] => some 0
  | c :: l =>
    if c = 'e' || c = 'E' then
      match l with
      | '+' :: l1 =>
        match takeDigits l1 with
        | (d :: ds, []) => some (natOfDigits (d :: ds))
        | _ => none
      | '-' :: l1 =>
        match takeDigits l1 with
        | (d :: ds, []) => some (-(natOfDigits (d :: ds) : Int))
        | _ => none
      | _ =>
        match takeDigits l with
        | (d :: ds, []) => some (natOfDigits (d :: ds))
        | _ => none
    else none

/-- An unsigned decimal literal as mantissa and power of ten. -/
def parseUnsigned (l : List Char) : Option (Nat × Int) :=
  match takeDigits l with
  | (ip, '.' :: r) =>
    match takeDigits r with
    | (fp, r1) =>
      if ip.isEmpty && fp.isEmpty then none
      else (parseExponent r1).map fun e => (natOfDigits (ip ++ fp), e - fp.length)
  | (ip, r) =>
    if ip.isEmpty then none
    else (parseExponent r).map fun e => (natOfDigits ip, e)

/-- A signed decimal literal, trimmed, as mantissa and power of ten; the
empty text denotes zero. -/
def parseDecimal (s : String) : Option (Int × Int) :=
  match trimWs s.toList with
  | [] => some (0, 0)
  | '+' :: l => (parseUnsigned l).map fun (m, e) => ((m : Int), e)
  | '-' :: l => (parseUnsigned l).map fun (m, e) => (-(m : Int), e)
  | l => (parseUnsigned l).map fun (m, e) => ((m : Int), e)

/-- String-to-number conversion on decimal literals. -/
def numberOfString (s : String) : JSNum :=
  match parseDecimal s with
  | some (m, e) => .fin (m * (10 : ℚ) ^ e)
  | none => .nan

/-! ## Market summary (`MarketSummary.js`) -/

/-- The comparison `x < b` for a nullable `x`: `null` converts to `0`. -/
def ltNullable : Option JSNum → JSNum → Bool
  | none, b => (JSNum.fin 0).lt b
  | some a, b => a.lt b

/-- The comparison `x > b` for a nullable `x`: `null` converts to `0`. -/
def gtNullable : Option JSNum → JSNum → Bool
  | none, b => (JSNum.fin 0).gt b
  | some a, b => a.gt b

/-- The filter `r => r.PCR_OI != null && r.PCR_OI < 0.7`. -/
def isBullishRow (r : Record) : Bool :=
  r.PCR_OI.isSome && ltNullable r.PCR_OI t07

/-- The filter `r => r.PCR_OI != null && r.PCR_OI > 1.3`. -/
def isBearishRow (r : Record) : Bool :=
  r.PCR_OI.isSome && gtNullable r.PCR_OI t13

/-- The count `bullish` of `stats`. -/
def bullishCount (data : List Record) : Nat :=
  (data.filter isBullishRow).length

/-- The count `bearish` of `stats`. -/
def bearishCount (data : List Record) : Nat :=
  (data.filter isBearishRow).length

/-- The count `neutral` of `stats`, by subtraction. -/
def neutralCount (data : List Record) : Int :=
  (data.length : Int) - (bullishCount data : Int) - (bearishCount data : Int)

/-- Insert `a` into a list sorted for `cmp`, after every element that the
comparator orders before it (`cmp a b > 0` places `b` first). -/
def sortInsert {α : Type} (cmp : α → α → JSNum) (a : α) : List α → List α
  | [] => [a]
  | b :: l =>
    if (cmp a b).gt (.fin 0) then b :: sortInsert cmp a l else a :: b :: l

/-- The method `Array.prototype.sort(cmp)` on a copy: a stable sort, so
elements that the comparator does not separate keep their input order. -/
def jsSort {α : Type} (cmp : α → α → JSNum) : List α → List α
  | [] => []
  | a :: l => sortInsert cmp a (jsSort cmp l)

/-- The comparator `(a, b) => (b.CE_Volume || 0) - (a.CE_Volume || 0)`. -/
def cmpCEVolumeDesc (a b : Record) : JSNum :=
  b.CE_Volume.orZero.sub a.CE_Volume.orZero

/-- The array `sorted` of `stats`. -/
def sortedByCEVolume (data : List Record) : List Record :=
  jsSort cmpCEVolumeDesc data

/-- The array `topActive` of `stats`: `sorted.slice(0, 5)`. -/
def topActive (data : List Record) : List Record :=
  (sortedByCEVolume data).take 5

/-- The records of the snapshot that `topActive` leaves out:
`sorted.slice(5)`. -/
def leftOut (data : List Record) : List Record :=
  (sortedByCEVolume data).drop 5

/-- The total `totalCEVol` of `stats`. -/
def totalCEVol (data : List Record) : JSNum :=
  data.foldl (fun s r => s.add r.CE_Volume.orZero) (.fin 0)

/-- The total `totalPEVol` of `stats`. -/
def totalPEVol (data : List Record) : JSNum :=
  data.foldl (fun s r => s.add r.PE_Volume.orZero) (.fin 0)

/-- The value `marketPCR` of `stats`; `none` is `null`. -/
def marketPCR (data : List Record) : Except NumError (Option JSNum) :=
  if (totalCEVol data).gt (.fin 0) then
    (JSNum.div (totalPEVol data) (totalCEVol data)).map some
  else .ok none

/-- The object `stats`. -/
structure Stats where
  bullish : Nat
  bearish : Nat
  neutral : Int
  topActive : List Record
  marketPCR : Option JSNum
deriving DecidableEq

/-- The memoised computation `stats` of `MarketSummary`; `none` is the
`null` returned for an empty snapshot. -/
def stats (data : List Record) : Except NumError (Option Stats) :=
  if data.length = 0 then .ok none
  else
    (marketPCR data).map fun m =>
      some { bullish := bullishCount data
             bearish := bearishCount data
             neutral := neutralCount data
             topActive := topActive data
             marketPCR := m }

/-! ## Reference counts in the words of the specification -/

/-- Number of records that the compact classifier labels `lbl`. -/
def labelledCount (lbl : String) (data : List Record) : Nat :=
  (data.filter fun r => getSentimentLabel r.PCR_OI == lbl).length

/-- Number of records that the detailed classifier labels `lbl`. -/
def labelledFullCount (lbl : String) (data : List Record) : Nat :=
  (data.filter fun r => (getSentimentFull r.PCR_OI).label == lbl).length

/-- A record whose PCR-OI is null or satisfies `0.7 <= pcr <= 1.3`. -/
def inNeutralBand (r : Record) : Bool :=
  match r.PCR_OI with
  | none => true
  | some p => t07.le p && p.le t13

/-- A record whose PCR-OI is `NaN`. -/
def pcrIsNaN (r : Record) : Bool :=
  match r.PCR_OI with
  | none => false
  | some p => p.isNaN

/-- A record whose PCR-OI is exactly `0.7`. -/
def pcrIsBoundary (r : Record) : Bool :=
  r.PCR_OI == some t07

/-- A record whose PCR-OI is a number strictly below `0.7`. -/
def belowBullishThreshold (r : Record) : Bool :=
  match r.PCR_OI with
  | some (.fin q) => decide (q < 7 / 10)
  | _ => false

/-- The rational denoted by a number (`0` for `NaN`). -/
def JSNum.toRat : JSNum → ℚ
  | .fin q => q
  | .nan => 0

/-- The exact sum of `ceVolume` over a snapshot. -/
def sumCEVolume (data : List Record) : ℚ :=
  (data.map fun r => r.CE_Volume.toRat).sum

/-- The exact sum of `peVolume` over a snapshot. -/
def sumPEVolume (data : List Record) : ℚ :=
  (data.map fun r => r.PE_Volume.toRat).sum

/-- A CSV row that carries a symbol and a PCR-OI cell. -/
def pcrRow (sym pcr : String) : RawRow :=
  [("Date", "2024-03-07"), ("Symbol", sym), ("PCR_OI", pcr)]

/-- Scenario 2 of the specification: PCR-OI cells `0.5`, empty and `1.4`. -/
def scenario2 : List Record :=
  [normalize numberOfString (pcrRow "A" "0.5"),
   normalize numberOfString (pcrRow "B" ""),
   normalize numberOfString (pcrRow "C" "1.4")]

/-- Scenario 1 of the specification: a raw row with an empty `CE_OI` cell,
an empty `PCR_Volume` cell and several columns missing. -/
def scenario1Row : RawRow :=
  [("Date", "2024-03-07"), ("Symbol", "TCS"), ("CE_Volume", "1000"), ("PE_Volume", "800"),
   ("CE_OI", ""), ("PE_OI", "500"), ("PCR_OI", "0.8"), ("PCR_Volume", "")]

/-- The record that Scenario 1 expects. -/
def scenario1Record : Record :=
  { Date := some "2024-03-07"
    Symbol := some "TCS"
    CE_Volume := .fin 1000
    PE_Volume := .fin 800
    CE_OI := .fin 0
    PE_OI := .fin 500
    CE_OI_Change := .fin 0
    PE_OI_Change := .fin 0
    CE_Turnover := .fin 0
    PE_Turnover := .fin 0
    CE_Contracts := .fin 0
    PE_Contracts := .fin 0
    PCR_OI := some (.fin (4 / 5))
    PCR_Volume := none }

/-- A record with the given symbol and CE volume, all else zero or null. -/
def volRecord (sym : String) (v : ℚ) : Record :=
  { Date := some "2024-03-07"
    Symbol := some sym
    CE_Volume := .fin v
    PE_Volume := .fin 0
    CE_OI := .fin 0
    PE_OI := .fin 0
    CE_OI_Change := .fin 0
    PE_OI_Change := .fin 0
    CE_Turnover := .fin 0
    PE_Turnover := .fin 0
    CE_Contracts := .fin 0
    PE_Contracts := .fin 0
    PCR_OI := none
    PCR_Volume := none }

/-- A snapshot of seven records with tied CE volumes. -/
def tiedSnapshot : List Record :=
  [volRecord "A" 10, volRecord "B" 30, volRecord "C" 10, volRecord "D" 20,
   volRecord "E" 30, volRecord "F" 10, volRecord "G" 5]

/-! ## Strings and the dataset index (`App.js`) -/

/-- The UTF-16 code units of a character: one unit on the Basic Multilingual
Plane, a surrogate pair above it. -/
def utf16Char (c : Char) : List Nat :=
  if c.toNat < 65536 then [c.toNat]
  else [55296 + (c.toNat - 65536) / 1024, 56320 + (c.toNat - 65536) % 1024]

/-- The UTF-16 code units of a text, the form in which JavaScript holds a
string. -/
def utf16 : List Char → List Nat
  | [] => []
  | c :: l => utf16Char c ++ utf16 l

/-- The comparison `a < b` of two strings: lexicographic on code units. -/
def jsStringLt (a b : String) : Bool :=
  decide (utf16 a.toList < utf16 b.toList)

/-- The default comparison of `Array.prototype.sort()` on values that are
strings or `undefined`: `undefined` goes last, strings are ordered by code
units. -/
def sortCompareDefault : Option String → Option String → JSNum
  | none, none => .fin 0
  | none, some _ => .fin 1
  | some _, none => .fin (-1)
  | some a, some b =>
    if jsStringLt a b then .fin (-1)
    else if jsStringLt b a then .fin 1
    else .fin 0

/-- The elements of `new Set(xs)` in iteration order: each value once, at
its first occurrence. -/
def newSet {α : Type} [DecidableEq α] : List α → List α
  | [] => []
  | a :: l => a :: (newSet l).filter (fun b => b ≠ a)

/-- The memoised array `dates` of `App`. -/
def dates (rawData : List Record) : List (Option String) :=
  jsSort sortCompareDefault (newSet (rawData.map fun r => r.Date))

/-- The value `latestDate`: `dates[dates.length - 1]`, `undefined` when the
index is out of range. -/
def latestDate (rawData : List Record) : Option String :=
  (dates rawData).getLast?.join

/-- The value `activeDate`: `selectedDate || latestDate`. -/
def activeDate (selectedDate : Option String) (rawData : List Record) : Option String :=
  if cellTruthy selectedDate then selectedDate else latestDate rawData

/-- The memoised array `latestData` of `App`. -/
def latestData (selectedDate : Option String) (rawData : List Record) : List Record :=
  rawData.filter fun r => r.Date == activeDate selectedDate rawData

/-- The order in which `dates` is claimed to be listed: a string before
every string that is greater by code units, and before `undefined`. -/
def dateBefore : Option String → Option String → Bool
  | some a, some b => jsStringLt a b
  | some _, none => true
  | none, _ => false

/-- The sort key of a date value: its code units, `undefined` on top. -/
def dateKey : Option String → WithTop (List Nat)
  | some a => ((utf16 a.toList : List Nat) : WithTop (List Nat))
  | none => ⊤

/-- A record with the given date and symbol, all else zero or null. -/
def dateRecord (d sym : String) : Record :=
  { Date := some d
    Symbol := some sym
    CE_Volume := .fin 0
    PE_Volume := .fin 0
    CE_OI := .fin 0
    PE_OI := .fin 0
    CE_OI_Change := .fin 0
    PE_OI_Change := .fin 0
    CE_Turnover := .fin 0
    PE_Turnover := .fin 0
    CE_Contracts := .fin 0
    PE_Contracts := .fin 0
    PCR_OI := none
    PCR_Volume := none }

/-- A dataset of two symbols on two dates, the later date first. -/
def sampleDataset : List Record :=
  [dateRecord "2024-03-08" "TCS", dateRecord "2024-03-07" "TCS",
   dateRecord "2024-03-07" "INFY", dateRecord "2024-03-08" "INFY"]

/-- An exception thrown by the JavaScript runtime. -/
inductive JSError where
  | typeError : JSError
deriving DecidableEq

/-- Insertion step of the sort for a comparator that may throw. -/
def sortInsertM {α : Type} (cmp : α → α → Except JSError JSNum) (a : α) :
    List α → Except JSError (List α)
  | [] => .ok [a]
  | b :: l =>
    match cmp a b with
    | .error e => .error e
    | .ok c =>
      if c.gt (.fin 0) then (sortInsertM cmp a l).map (fun s => b :: s)
      else .ok (a :: b :: l)

/-- The method `Array.prototype.sort(cmp)` for a comparator that may throw:
the stable sort of `jsSort`, abandoned at the first exception. -/
def jsSortM {α : Type} (cmp : α → α → Except JSError JSNum) :
    List α → Except JSError (List α)
  | [] => .ok []
  | a :: l =>
    match jsSortM cmp l with
    | .error e => .error e
    | .ok s => sortInsertM cmp a s

/-- The comparator `(a, b) => a.Date.localeCompare(b.Date)`: a method call on
`undefined` throws, and an `undefined` argument is converted to the text
"undefined".  The collation `localeCompare` is a parameter. -/
def cmpDate (localeCompare : String → String → JSNum) (a b : Record) :
    Except JSError JSNum :=
  match a.Date with
  | none => .error .typeError
  | some da => .ok (localeCompare da (b.Date.getD "undefined"))

/-- The memoised array `stockHistory` of `App`. -/
def stockHistory (localeCompare : String → String → JSNum) (rawData : List Record)
    (selectedStock : Option String) : Except JSError (List Record) :=
  if !cellTruthy selectedStock then .ok []
  else jsSortM (cmpDate localeCompare) (rawData.filter fun r => r.Symbol == selectedStock)

/-- A well-formed date `YYYY-MM-DD`: ten characters, digits except for the
two hyphens. -/
def wellFormedDate (s : String) : Bool :=
  match s.toList with
  | [y1, y2, y3, y4, h1, m1, m2, h2, d1, d2] =>
    (digitVal y1).isSome && (digitVal y2).isSome && (digitVal y3).isSome &&
    (digitVal y4).isSome && h1 == '-' && (digitVal m1).isSome && (digitVal m2).isSome &&
    h2 == '-' && (digitVal d1).isSome && (digitVal d2).isSome
  | _ => false

/-- A collation that orders strings by code units; on well-formed dates
every collation agrees with it. -/
def codeUnitCompare (a b : String) : JSNum :=
  sortCompareDefault (some a) (some b)

/-- The comparator of `stockHistory` with code-unit collation, on records
that carry a date. -/
def cmpDateKey (a b : Record) : JSNum :=
  sortCompareDefault a.Date b.Date

/-! ## Formatters (`utils.js`) -/

/-- The integer nearest to `y`, the even one on a tie. -/
def roundEven (y : ℚ) : ℤ :=
  if y - ⌊y⌋ < 1 / 2 then ⌊y⌋
  else if 1 / 2 < y - ⌊y⌋ then ⌊y⌋ + 1
  else if ⌊y⌋ % 2 = 0 then ⌊y⌋ else ⌊y⌋ + 1

/-- The double nearest to the rational `x`: 53 significant bits, round to
nearest, ties to even.  It is the result that the runtime stores for an
arithmetic operation whose exact result is `x`.  The exponent range is not
bounded. -/
def fl (x : ℚ) : ℚ :=
  if x = 0 then 0
  else (roundEven (x / 2 ^ (Int.log 2 |x| - 52)) : ℚ) * 2 ^ (Int.log 2 |x| - 52)

/-- The two number-to-text methods of the runtime that the formatters call:
`x.toFixed(f)` and `x.toLocaleString('en-IN')`. -/
structure NumberFormat where
  toFixed : ℚ → Nat → String
  toLocaleString : ℚ → String

/-- The function `formatNum` of `utils.js`; `none` is `null`/`undefined`.
Each quotient is the double that the division produces. -/
def formatNum (F : NumberFormat) : Option JSNum → String
  | none => "-"
  | some .nan => "-"
  | some (.fin n) =>
    if abs n ≥ 10000000 then F.toFixed (fl (n / 10000000)) 2 ++ " Cr"
    else if abs n ≥ 100000 then F.toFixed (fl (n / 100000)) 1 ++ " L"
    else F.toLocaleString n

/-- The function `formatChange` of `utils.js`. -/
def formatChange (F : NumberFormat) : Option JSNum → String
  | none => "-"
  | some .nan => "-"
  | some (.fin n) =>
    let pre := if n > 0 then "+" else ""
    if abs n ≥ 10000000 then pre ++ F.toFixed (fl (n / 10000000)) 2 ++ " Cr"
    else if abs n ≥ 100000 then pre ++ F.toFixed (fl (n / 100000)) 1 ++ " L"
    else pre ++ F.toLocaleString n

/-- The function `formatCr` of `utils.js`. -/
def formatCr (F : NumberFormat) : Option JSNum → String
  | none => "-"
  | some .nan => "-"
  | some (.fin n) =>
    let val := fl (n / 10000000)
    if abs val ≥ 1000 then "₹" ++ F.toFixed (fl (val / 1000)) 1 ++ "K Cr"
    else "₹" ++ F.toFixed val 1 ++ " Cr"

/-! ### The number format of the runtime

The formatters are parametric in the runtime's number-to-text methods.  The
methods below follow the ECMAScript algorithms on the exact value of the
double they receive (magnitudes below `10^21`). -/

/-- The integer `n` for which `n / 10^f` is closest to the magnitude of `x`,
the larger one on a tie. -/
def roundHalfUp (x : ℚ) (f : Nat) : Nat :=
  (Int.floor ((if x < 0 then -x else x) * 10 ^ f + 1 / 2)).toNat

/-- Pad a digit string with zeros on the left up to `k` characters. -/
def padZeros (k : Nat) (s : String) : String :=
  String.mk (List.replicate (k - s.length) '0') ++ s

/-- The method `x.toFixed(f)`. -/
def toFixed (x : ℚ) (f : Nat) : String :=
  (if x < 0 then "-" else "") ++ toString (roundHalfUp x f / 10 ^ f) ++
    (if f = 0 then "" else "." ++ padZeros f (toString (roundHalfUp x f % 10 ^ f)))

/-- Separate pairs of digits by commas, on a reversed digit list. -/
def groupPairsRev : List Char → List Char
  | a :: b :: c :: l => a :: b :: ',' :: groupPairsRev (c :: l)
  | l => l

/-- Indian digit grouping, on a reversed digit list: the last three digits,
then pairs. -/
def groupIndianRev : List Char → List Char
  | a :: b :: c :: d :: l => a :: b :: c :: ',' :: groupPairsRev (d :: l)
  | l => l

/-- Indian digit grouping of a digit string. -/
def groupIndian (s : String) : String :=
  String.mk (groupIndianRev s.toList.reverse).reverse

/-- Drop the zeros at the end of a fraction. -/
def stripTrailingZeros (s : String) : String :=
  String.mk (s.toList.reverse.dropWhile (fun c => c == '0')).reverse

/-- The method `x.toLocaleString('en-IN')`: Indian grouping of the integer
part and at most three fraction digits. -/
def toLocaleStringIN (x : ℚ) : String :=
  (if x < 0 then "-" else "") ++ groupIndian (toString (roundHalfUp x 3 / 1000)) ++
    (if roundHalfUp x 3 % 1000 = 0 then ""
     else "." ++ stripTrailingZeros (padZeros 3 (toString (roundHalfUp x 3 % 1000))))

/-- The number format of the runtime: each method works on the exact value of
the double it is given. -/
def jsFormat : NumberFormat :=
  { toFixed := toFixed, toLocaleString := toLocaleStringIN }

/-- The text `t` is the number `x` rounded to `k` decimals: read as a decimal
literal, `t` is an integer `m` counted in units of `10^-k`, carrying the sign
of `x`, and `m` is within half a unit of the magnitude of `x`. -/
def RoundedTo (t : String) (x : ℚ) (k : Nat) : Prop :=
  ∃ m : Nat, |(m : ℚ) - |x| * 10 ^ k| ≤ 1 / 2 ∧
    parseDecimal t = some ((if x < 0 then -(m : ℤ) else (m : ℤ)), -(k : ℤ))

/-- The array `months` of `formatDateShort`. -/
def months : List String :=
  ["", "Jan", "Feb", "Mar", "Apr", "May", "Jun", "Jul", "Aug", "Sep", "Oct", "Nov", "Dec"]

/-- The call `d.split('-')` on the characters of `d`. -/
def splitDash : List Char → List (List Char)
  | [] => [[]]
  | c :: l =>
    if c = '-' then [] :: splitDash l
    else
      match splitDash l with
      | [] => [[c]]
      | h :: t => (c :: h) :: t

/-- Value of a character as a digit of the given radix. -/
def radixDigit (radix : Nat) (c : Char) : Option Nat :=
  let v :=
    if 48 ≤ c.toNat && c.toNat ≤ 57 then c.toNat - 48
    else if 97 ≤ c.toNat && c.toNat ≤ 122 then c.toNat - 87
    else if 65 ≤ c.toNat && c.toNat ≤ 90 then c.toNat - 55
    else radix
  if v < radix then some v else none

/-- The longest prefix of digits of the given radix. -/
def takeRadixDigits (radix : Nat) : List Char → List Nat
  | [] => []
  | c :: l =>
    match radixDigit radix c with
    | some d => d :: takeRadixDigits radix l
    | none => []

/-- The digits of `parseInt` after white space and sign: radix 16 after a
`0x` marker, radix 10 otherwise; `none` is `NaN`. -/
def parseIntDigits : List Char → Option Nat
  | '0' :: 'x' :: l =>
    if (takeRadixDigits 16 l).isEmpty then none
    else some ((takeRadixDigits 16 l).foldl (fun n d => 16 * n + d) 0)
  | '0' :: 'X' :: l =>
    if (takeRadixDigits 16 l).isEmpty then none
    else some ((takeRadixDigits 16 l).foldl (fun n d => 16 * n + d) 0)
  | l =>
    if (takeRadixDigits 10 l).isEmpty then none
    else some ((takeRadixDigits 10 l).foldl (fun n d => 10 * n + d) 0)

/-- The call `parseInt(x)` without radix, for `x` a string or `undefined`
(converted to the text "undefined"); `none` is `NaN`. -/
def parseInt (x : Option (List Char)) : Option Int :=
  match (x.getD "undefined".toList).dropWhile isStrWhiteSpace with
  | '-' :: l => (parseIntDigits l).map fun n => -(n : Int)
  | '+' :: l => (parseIntDigits l).map fun n => (n : Int)
  | l => (parseIntDigits l).map fun n => (n : Int)

/-- The text of an integer-or-`NaN` inside a template literal. -/
def numberToString : Option Int → String
  | none => "NaN"
  | some i => toString i

/-- The text of `months[i]` inside a template literal: an index that is
`NaN`, negative or past the end reads `undefined`. -/
def monthAt : Option Int → String
  | some (Int.ofNat k) => (months.get? k).getD "undefined"
  | _ => "undefined"

/-- The function `formatDateShort` of `utils.js`. -/
def formatDateShort (d : Option String) : String :=
  if !cellTruthy d then ""
  else
    numberToString (parseInt ((splitDash (d.getD "").toList).get? 2)) ++ " " ++
      monthAt (parseInt ((splitDash (d.getD "").toList).get? 1))

/-- The decimal value of a digit character (`0` for any other). -/
def digitOf (c : Char) : Nat :=
  (digitVal c).getD 0

/-- The day number written in a well-formed date. -/
def dateDay (s : String) : Nat :=
  match s.toList with
  | [_, _, _, _, _, _, _, _, d1, d2] => 10 * digitOf d1 + digitOf d2
  | _ => 0

/-- The month number written in a well-formed date. -/
def dateMonth (s : String) : Nat :=
  match s.toList with
  | [_, _, _, _, _, m1, m2, _, _, _] => 10 * digitOf m1 + digitOf m2
  | _ => 0

/-- The three-letter English abbreviation of a month. -/
def monthAbbrev : Nat → String
  | 1 => "Jan"
  | 2 => "Feb"
  | 3 => "Mar"
  | 4 => "Apr"
  | 5 => "May"
  | 6 => "Jun"
  | 7 => "Jul"
  | 8 => "Aug"
  | 9 => "Sep"
  | 10 => "Oct"
  | 11 => "Nov"
  | 12 => "Dec"
  | _ => ""

/-! ## Day-over-day change (`StockDetail.js`) -/

/-- The function `Math.abs`. -/
def JSNum.abs : JSNum → JSNum
  | .fin q => .fin |q|
  | .nan => .nan

/-- The JavaScript difference `a - b`, rounded to the nearest double. -/
def JSNum.fsub : JSNum → JSNum → JSNum
  | .fin a, .fin b => .fin (fl (a - b))
  | _, _ => .nan

/-- The JavaScript product `a * b`, rounded to the nearest double. -/
def JSNum.fmul : JSNum → JSNum → JSNum
  | .fin a, .fin b => .fin (fl (a * b))
  | _, _ => .nan

/-- The quotient `a / b`, rounded to the nearest double and checked: a zero
divisor is reported instead of producing a value outside the finite model. -/
def JSNum.fdiv : JSNum → JSNum → Except NumError JSNum
  | .fin a, .fin b => if b = 0 then .error .divByZero else .ok (.fin (fl (a / b)))
  | _, _ => .ok .nan

/-- A possibly `undefined` number as an arithmetic operand: `undefined`
converts to `NaN`. -/
def operand : Option JSNum → JSNum
  | none => .nan
  | some x => x

/-- Truthiness of a possibly `undefined` number. -/
def optTruthy : Option JSNum → Bool
  | none => false
  | some x => x.truthy

/-- The test `x === 0`. -/
def strictEqZero : Option JSNum → Bool
  | some (.fin q) => decide (q = 0)
  | _ => false

/-- The method call `x.toFixed(f)` on a number that may be `NaN`. -/
def toFixedJS (F : NumberFormat) : JSNum → Nat → String
  | .nan, _ => "NaN"
  | .fin q, f => F.toFixed q f

/-- The helper `changePct` of `StockDetail`; the inner `none` is `null`. -/
def changePct (F : NumberFormat) (curr prevVal : Option JSNum) :
    Except NumError (Option String) :=
  if !optTruthy prevVal || !optTruthy curr || strictEqZero prevVal then .ok none
  else
    (JSNum.fdiv ((operand curr).fsub (operand prevVal)) (operand prevVal).abs).map
      fun d => some (toFixedJS F (d.fmul (.fin 100)) 1)

/-- The double that `changePct` passes to `toFixed` for the numbers `c` and
`p`: difference, quotient and product, each rounded. -/
def changeValue (c p : ℚ) : ℚ :=
  fl (fl (fl (c - p) / |p|) * 100)

/-! ## Properties -/

/-! ### Number helpers -/

theorem JSNum.gt_fin (a b : ℚ) : (JSNum.fin a).gt (.fin b) = decide (b < a) := rfl

theorem JSNum.lt_fin (a b : ℚ) : (JSNum.fin a).lt (.fin b) = decide (a < b) := rfl

theorem JSNum.add_fin (a b : ℚ) : (JSNum.fin a).add (.fin b) = .fin (a + b) := rfl

theorem JSNum.gt_nan_left (b : JSNum) : JSNum.nan.gt b = false := rfl

theorem JSNum.lt_nan_left (b : JSNum) : JSNum.nan.lt b = false := rfl

/-! ### Sentiment classification -/

/-- C1: for a numeric `pcr` the detailed classifier returns the label fixed
by the strict bands: "Strong Bearish" exactly above 1.3, "Moderate Bearish"
exactly on (1.0, 1.3], "Neutral" exactly on (0.7, 1.0], "Bullish" exactly up
to 0.7; the boundary values 0.7, 1.0, 1.3 get "Bullish", "Neutral",
"Moderate Bearish"; and the contrarian sublabel is present exactly above
1.5. -/
theorem getSentimentFull_bands (q : ℚ) :
    ((getSentimentFull (some (.fin q))).label = "Strong Bearish" ↔ 13 / 10 < q) ∧
    ((getSentimentFull (some (.fin q))).label = "Moderate Bearish" ↔ 1 < q ∧ q ≤ 13 / 10) ∧
    ((getSentimentFull (some (.fin q))).label = "Neutral" ↔ 7 / 10 < q ∧ q ≤ 1) ∧
    ((getSentimentFull (some (.fin q))).label = "Bullish" ↔ q ≤ 7 / 10) ∧
    (getSentimentFull (some (.fin (7 / 10)))).label = "Bullish" ∧
    (getSentimentFull (some (.fin 1))).label = "Neutral" ∧
    (getSentimentFull (some (.fin (13 / 10)))).label = "Moderate Bearish" ∧
    ((getSentimentFull (some (.fin q))).sublabel.isSome = true ↔ 15 / 10 < q) := by
  have hb1 : (getSentimentFull (some (.fin (7 / 10)))).label = "Bullish" := by
    simp only [getSentimentFull, t15, t13, t10, t07, JSNum.gt_fin]; norm_num
  have hb2 : (getSentimentFull (some (.fin 1))).label = "Neutral" := by
    simp only [getSentimentFull, t15, t13, t10, t07, JSNum.gt_fin]; norm_num
  have hb3 : (getSentimentFull (some (.fin (13 / 10)))).label = "Moderate Bearish" := by
    simp only [getSentimentFull, t15, t13, t10, t07, JSNum.gt_fin]; norm_num
  refine ⟨?_, ?_, ?_, ?_, hb1, hb2, hb3, ?_⟩ <;>
  · simp only [getSentimentFull, t15, t13, t10, t07, JSNum.gt_fin, decide_eq_true_eq]
    split_ifs <;> simp <;>
      first | linarith | (intros; linarith) | (constructor <;> linarith)

theorem JSNum.gt_t15_imp (p : JSNum) (h : p.gt t15 = true) : p.gt t13 = true := by
  cases p with
  | nan => simp [JSNum.gt] at h
  | fin q =>
    simp only [t15, t13, JSNum.gt_fin, decide_eq_true_eq] at h ⊢
    linarith

/-- C4: the compact label, the detailed label and the colour class always
name the same band: "Bearish"/"Strong Bearish"/"pcr-bearish", "Mod
Bear"/"Moderate Bearish"/"pcr-mod-bearish", "Neutral"/"Neutral"/"pcr-neutral"
and "Bullish"/"Bullish"/"pcr-bullish" go together for every non-null
number. -/
theorem sentiment_variants_agree (pcr : JSNum) :
    (getSentimentLabel (some pcr) = "Bearish" ↔
      (getSentimentFull (some pcr)).label = "Strong Bearish") ∧
    (getSentimentLabel (some pcr) = "Mod Bear" ↔
      (getSentimentFull (some pcr)).label = "Moderate Bearish") ∧
    (getSentimentLabel (some pcr) = "Neutral" ↔
      (getSentimentFull (some pcr)).label = "Neutral") ∧
    (getSentimentLabel (some pcr) = "Bullish" ↔
      (getSentimentFull (some pcr)).label = "Bullish") ∧
    (getPCRColor (some pcr) = "pcr-bearish" ↔
      (getSentimentFull (some pcr)).label = "Strong Bearish") ∧
    (getPCRColor (some pcr) = "pcr-mod-bearish" ↔
      (getSentimentFull (some pcr)).label = "Moderate Bearish") ∧
    (getPCRColor (some pcr) = "pcr-neutral" ↔
      (getSentimentFull (some pcr)).label = "Neutral") ∧
    (getPCRColor (some pcr) = "pcr-bullish" ↔
      (getSentimentFull (some pcr)).label = "Bullish") := by
  have h15 := JSNum.gt_t15_imp pcr
  simp only [getSentimentLabel, getSentimentFull, getPCRColor]
  cases h1 : pcr.gt t15 <;> cases h2 : pcr.gt t13 <;> cases h3 : pcr.gt t10 <;>
    cases h4 : pcr.gt t07 <;> simp_all

/-! ### Sentiment buckets of the market summary -/

theorem isBearishRow_eq_label (r : Record) :
    isBearishRow r = (getSentimentLabel r.PCR_OI == "Bearish") := by
  unfold isBearishRow getSentimentLabel gtNullable
  cases r.PCR_OI with
  | none => simp
  | some p =>
    cases h2 : p.gt t13 <;> cases h3 : p.gt t10 <;> cases h4 : p.gt t07 <;> simp [h2, h3, h4]

theorem isBearishRow_eq_full (r : Record) :
    isBearishRow r = ((getSentimentFull r.PCR_OI).label == "Strong Bearish") := by
  unfold isBearishRow getSentimentFull gtNullable
  cases hp : r.PCR_OI with
  | none => simp
  | some p =>
    have h15 := JSNum.gt_t15_imp p
    cases h1 : p.gt t15 <;> cases h2 : p.gt t13 <;> cases h3 : p.gt t10 <;>
      cases h4 : p.gt t07 <;> simp_all

/-- C3: the bearish count of the market summary is the number of records
that the compact classifier labels "Bearish", and equally the number that
the detailed classifier labels "Strong Bearish". -/
theorem bearishCount_eq_classifier (data : List Record) :
    bearishCount data = labelledCount "Bearish" data ∧
    bearishCount data = labelledFullCount "Strong Bearish" data := by
  constructor
  · unfold bearishCount labelledCount
    congr 2
    funext r
    exact isBearishRow_eq_label r
  · unfold bearishCount labelledFullCount
    congr 2
    funext r
    exact isBearishRow_eq_full r

theorem parseDecimal_boundary : parseDecimal "0.7" = some (7, -1) := by decide

theorem pcrRow_boundary :
    (normalize numberOfString (pcrRow "TCS" "0.7")).PCR_OI = some t07 := by
  simp [normalize, pcrField, RawRow.field, pcrRow, List.lookup, cellTruthy, toNumber,
    numberOfString, parseDecimal_boundary, t07]
  norm_num

theorem label_bullish_cases (r : Record) :
    (getSentimentLabel r.PCR_OI == "Bullish") =
      (isBullishRow r || (pcrIsBoundary r || pcrIsNaN r)) ∧
    (isBullishRow r && (pcrIsBoundary r || pcrIsNaN r)) = false ∧
    isBullishRow r = belowBullishThreshold r ∧
    (getSentimentLabel r.PCR_OI == "Bullish") =
      ((getSentimentFull r.PCR_OI).label == "Bullish") := by
  unfold isBullishRow pcrIsBoundary pcrIsNaN belowBullishThreshold ltNullable
    getSentimentLabel getSentimentFull
  cases hp : r.PCR_OI with
  | none => simp
  | some p =>
    cases p with
    | nan => simp [JSNum.gt, JSNum.lt, JSNum.isNaN, t07]
    | fin q =>
      simp only [t15, t13, t10, t07, JSNum.gt_fin, JSNum.lt_fin, JSNum.isNaN]
      by_cases h1 : (15 : ℚ) / 10 < q
      · have h2 : (13 : ℚ) / 10 < q := by linarith
        have h3 : (1 : ℚ) < q := by linarith
        have h4 : (7 : ℚ) / 10 < q := by linarith
        have h5 : ¬ q < 7 / 10 := by linarith
        have h6 : q ≠ 7 / 10 := by linarith
        simp [h1, h2, h3, h4, h5, h6]
      · by_cases h2 : (13 : ℚ) / 10 < q
        · have h3 : (1 : ℚ) < q := by linarith
          have h4 : (7 : ℚ) / 10 < q := by linarith
          have h5 : ¬ q < 7 / 10 := by linarith
          have h6 : q ≠ 7 / 10 := by linarith
          simp [h1, h2, h3, h4, h5, h6]
        · by_cases h3 : (1 : ℚ) < q
          · have h4 : (7 : ℚ) / 10 < q := by linarith
            have h5 : ¬ q < 7 / 10 := by linarith
            have h6 : q ≠ 7 / 10 := by linarith
            simp [h1, h2, h3, h4, h5, h6]
          · by_cases h4 : (7 : ℚ) / 10 < q
            · have h5 : ¬ q < 7 / 10 := by linarith
              have h6 : q ≠ 7 / 10 := by linarith
              simp [h1, h2, h3, h4, h5, h6]
            · by_cases h5 : q < 7 / 10
              · have h6 : q ≠ 7 / 10 := by linarith
                simp [h1, h2, h3, h4, h5, h6]
              · have h6 : q = 7 / 10 := by linarith
                subst h6
                norm_num

theorem length_filter_or_disjoint {α : Type} (p q : α → Bool) (l : List α)
    (h : ∀ a, (p a && q a) = false) :
    (l.filter p).length + (l.filter q).length = (l.filter fun a => p a || q a).length := by
  induction l with
  | nil => rfl
  | cons a l ih =>
    have ha := h a
    cases hp : p a <;> cases hq : q a <;> simp_all [List.filter_cons] <;> omega

/-- C2, counterexample: a row whose PCR-OI cell is "0.7" is labelled
"Bullish" by both classifier variants, yet the market summary counts no
bullish record in the snapshot made of that row. -/
theorem bullishCount_boundary_mismatch :
    bullishCount [normalize numberOfString (pcrRow "TCS" "0.7")] = 0 ∧
    labelledCount "Bullish" [normalize numberOfString (pcrRow "TCS" "0.7")] = 1 ∧
    labelledFullCount "Bullish" [normalize numberOfString (pcrRow "TCS" "0.7")] = 1 := by
  simp [bullishCount, labelledCount, labelledFullCount, isBullishRow, ltNullable, List.filter,
    pcrRow_boundary, getSentimentLabel, getSentimentFull, t15, t13, t10, t07, JSNum.gt_fin,
    JSNum.lt_fin]
  norm_num

/-- C2, amended: the bullish count of the market summary is the number of
records whose PCR-OI is a number strictly below 0.7; adding the records
whose PCR-OI is exactly 0.7 or NaN gives the number of records that the
classifier (either variant) labels "Bullish". -/
theorem bullishCount_eq_strict (data : List Record) :
    bullishCount data = (data.filter belowBullishThreshold).length ∧
    bullishCount data + (data.filter fun r => pcrIsBoundary r || pcrIsNaN r).length =
      labelledCount "Bullish" data ∧
    labelledCount "Bullish" data = labelledFullCount "Bullish" data := by
  refine ⟨?_, ?_, ?_⟩
  · unfold bullishCount
    congr 2
    funext r
    exact (label_bullish_cases r).2.2.1
  · unfold bullishCount labelledCount
    rw [length_filter_or_disjoint _ _ _ fun r => (label_bullish_cases r).2.1]
    congr 2
    funext r
    exact ((label_bullish_cases r).1).symm
  · unfold labelledCount labelledFullCount
    congr 2
    funext r
    exact (label_bullish_cases r).2.2.2

theorem pcrRow_PCR_OI (sym cell : String) :
    (normalize numberOfString (pcrRow sym cell)).PCR_OI =
      if cell ≠ "" then some (numberOfString cell) else none := by
  simp [normalize, pcrField, RawRow.field, pcrRow, List.lookup, cellTruthy, toNumber]

theorem numberOfString_NA : numberOfString "NA" = .nan := by
  have h : parseDecimal "NA" = none := by decide
  simp [numberOfString, h]

theorem numberOfString_0_5 : numberOfString "0.5" = .fin (1 / 2) := by
  have h : parseDecimal "0.5" = some (5, -1) := by decide
  simp [numberOfString, h]
  norm_num

theorem numberOfString_1_4 : numberOfString "1.4" = .fin (7 / 5) := by
  have h : parseDecimal "1.4" = some (14, -1) := by decide
  simp [numberOfString, h]
  norm_num

theorem row_trichotomy (r : Record) :
    (isBullishRow r = true ∧ isBearishRow r = false ∧
      (inNeutralBand r || pcrIsNaN r) = false) ∨
    (isBullishRow r = false ∧ isBearishRow r = true ∧
      (inNeutralBand r || pcrIsNaN r) = false) ∨
    (isBullishRow r = false ∧ isBearishRow r = false ∧
      (inNeutralBand r || pcrIsNaN r) = true) := by
  unfold isBullishRow isBearishRow inNeutralBand pcrIsNaN ltNullable gtNullable
  cases hp : r.PCR_OI with
  | none => simp
  | some p =>
    cases p with
    | nan => simp [JSNum.gt, JSNum.lt, JSNum.le, JSNum.isNaN, t07, t13]
    | fin q =>
      simp only [t13, t07, JSNum.gt, JSNum.lt, JSNum.le, JSNum.isNaN, Option.isSome_some,
        Bool.true_and, Bool.or_false, Bool.and_eq_true, Bool.and_eq_false_iff,
        decide_eq_true_eq, decide_eq_false_iff_not]
      by_cases h1 : q < 7 / 10
      · left
        refine ⟨h1, by linarith, Or.inl (by linarith)⟩
      · by_cases h2 : (13 : ℚ) / 10 < q
        · right; left
          refine ⟨h1, h2, Or.inr (by linarith)⟩
        · right; right
          refine ⟨h1, h2, by linarith, by linarith⟩

theorem counts_sum (data : List Record) :
    bullishCount data + bearishCount data +
      (data.filter fun r => inNeutralBand r || pcrIsNaN r).length = data.length := by
  unfold bullishCount bearishCount
  induction data with
  | nil => rfl
  | cons r l ih =>
    rcases row_trichotomy r with ⟨h1, h2, h3⟩ | ⟨h1, h2, h3⟩ | ⟨h1, h2, h3⟩ <;>
      simp only [List.filter_cons, h1, h2, h3, List.length_cons, if_true, if_false,
        Bool.false_eq_true] <;> omega

/-- C5, counterexample: a row whose PCR-OI cell is the text "NA" normalises
to a record with PCR-OI `NaN`; the summary counts it as neutral although its
PCR-OI is neither null nor within `0.7 <= pcr <= 1.3`. -/
theorem neutralCount_nan_mismatch :
    neutralCount [normalize numberOfString (pcrRow "TCS" "NA")] = 1 ∧
    ([normalize numberOfString (pcrRow "TCS" "NA")].filter inNeutralBand).length = 0 := by
  simp [neutralCount, bullishCount, bearishCount, isBullishRow, isBearishRow, ltNullable,
    gtNullable, inNeutralBand, List.filter, pcrRow_PCR_OI, numberOfString_NA, JSNum.gt,
    JSNum.lt, JSNum.le]

/-- C5, amended: the three counts are non-negative and sum to the number of
records; a record with null PCR-OI is in neither the bullish nor the bearish
bucket; and the neutral count is the number of records whose PCR-OI is null,
NaN, or satisfies `0.7 <= pcr <= 1.3`.  Scenario 2 evaluates to 1, 1, 1. -/
theorem counts_partition (data : List Record) :
    (bullishCount data : Int) + (bearishCount data : Int) + neutralCount data = data.length ∧
    0 ≤ (bullishCount data : Int) ∧ 0 ≤ (bearishCount data : Int) ∧ 0 ≤ neutralCount data ∧
    neutralCount data = ((data.filter fun r => inNeutralBand r || pcrIsNaN r).length : Int) ∧
    (∀ r ∈ data, r.PCR_OI = none → isBullishRow r = false ∧ isBearishRow r = false) ∧
    (bullishCount scenario2 = 1 ∧ bearishCount scenario2 = 1 ∧ neutralCount scenario2 = 1) := by
  have h := counts_sum data
  refine ⟨?_, ?_, ?_, ?_, ?_, ?_, ?_⟩
  · unfold neutralCount; omega
  · omega
  · omega
  · unfold neutralCount; omega
  · unfold neutralCount; omega
  · intro r _ hr
    simp [isBullishRow, isBearishRow, hr]
  · simp [scenario2, neutralCount, bullishCount, bearishCount, isBullishRow, isBearishRow,
      ltNullable, gtNullable, List.filter, pcrRow_PCR_OI, numberOfString_0_5,
      numberOfString_1_4, JSNum.gt, JSNum.lt, t07, t13]
    norm_num

/-! ### Market-wide put-call ratio -/

theorem JSNum.orZero_of_ge_zero (x : JSNum) (h : x.ge (.fin 0) = true) :
    x.orZero = .fin x.toRat ∧ 0 ≤ x.toRat := by
  cases x with
  | nan => simp [JSNum.ge] at h
  | fin q =>
    simp only [JSNum.ge, decide_eq_true_eq] at h
    refine ⟨?_, h⟩
    by_cases hq : q = 0
    · simp [JSNum.orZero, JSNum.truthy, JSNum.toRat, hq]
    · simp [JSNum.orZero, JSNum.truthy, JSNum.toRat, hq]

theorem foldl_add_orZero (f : Record → JSNum) (data : List Record)
    (h : ∀ r ∈ data, (f r).orZero = .fin (f r).toRat) (a : ℚ) :
    data.foldl (fun (s : JSNum) r => s.add (f r).orZero) (JSNum.fin a) =
      JSNum.fin (a + (data.map fun r => (f r).toRat).sum) := by
  induction data generalizing a with
  | nil => simp
  | cons r l ih =>
    have hr := h r (List.mem_cons_self r l)
    have hl : ∀ x ∈ l, (f x).orZero = .fin (f x).toRat :=
      fun x hx => h x (List.mem_cons_of_mem r hx)
    simp only [List.foldl_cons, List.map_cons, List.sum_cons, hr, JSNum.add_fin]
    rw [ih hl]
    congr 1
    ring

theorem marketPCR_never_fails (data : List Record) :
    ∃ m, marketPCR data = .ok m := by
  unfold marketPCR
  cases hce : totalCEVol data with
  | nan => simp [JSNum.gt]
  | fin c =>
    by_cases hc : 0 < c
    · have hc0 : c ≠ 0 := ne_of_gt hc
      cases hpe : totalPEVol data with
      | nan => simp [JSNum.gt, hc, JSNum.div, Except.map]
      | fin p => simp [JSNum.gt, hc, JSNum.div, hc0, Except.map]
    · simp [JSNum.gt, hc]

/-- C6: for a non-empty snapshot with non-negative CE and PE volumes the
summary is produced without a division by zero; its `marketPCR` is null
exactly when the CE volumes sum to 0, and otherwise is the quotient of the
PE sum by the CE sum. -/
theorem marketPCR_spec (data : List Record) (hne : data ≠ [])
    (hvol : ∀ r ∈ data, r.CE_Volume.ge (.fin 0) = true ∧ r.PE_Volume.ge (.fin 0) = true) :
    ∃ s : Stats, stats data = .ok (some s) ∧
      marketPCR data = .ok s.marketPCR ∧
      (s.marketPCR = none ↔ sumCEVolume data = 0) ∧
      (sumCEVolume data ≠ 0 →
        s.marketPCR = some (.fin (sumPEVolume data / sumCEVolume data))) := by
  have hce : totalCEVol data = .fin (sumCEVolume data) := by
    have := foldl_add_orZero (fun r => r.CE_Volume) data
      (fun r hr => (JSNum.orZero_of_ge_zero _ (hvol r hr).1).1) 0
    simpa [totalCEVol, sumCEVolume] using this
  have hpe : totalPEVol data = .fin (sumPEVolume data) := by
    have := foldl_add_orZero (fun r => r.PE_Volume) data
      (fun r hr => (JSNum.orZero_of_ge_zero _ (hvol r hr).2).1) 0
    simpa [totalPEVol, sumPEVolume] using this
  have hnonneg : 0 ≤ sumCEVolume data := by
    unfold sumCEVolume
    apply List.sum_nonneg
    intro x hx
    rcases List.mem_map.1 hx with ⟨r, hr, rfl⟩
    exact (JSNum.orZero_of_ge_zero _ (hvol r hr).1).2
  have hlen : data.length ≠ 0 := by
    intro h0
    exact hne (List.length_eq_zero.1 h0)
  by_cases hz : sumCEVolume data = 0
  · have hm : marketPCR data = .ok none := by
      simp [marketPCR, hce, JSNum.gt, hz]
    refine ⟨{ bullish := bullishCount data, bearish := bearishCount data,
              neutral := neutralCount data, topActive := topActive data,
              marketPCR := none }, ?_, ?_, ?_, ?_⟩
    · simp only [stats, hlen, if_false, hm, Except.map]
    · exact hm
    · simp [hz]
    · intro h; exact absurd hz h
  · have hpos : 0 < sumCEVolume data := lt_of_le_of_ne hnonneg (Ne.symm hz)
    have hm : marketPCR data =
        .ok (some (.fin (sumPEVolume data / sumCEVolume data))) := by
      simp [marketPCR, hce, hpe, JSNum.gt, hpos, JSNum.div, hz, Except.map]
    refine ⟨{ bullish := bullishCount data, bearish := bearishCount data,
              neutral := neutralCount data, topActive := topActive data,
              marketPCR := some (.fin (sumPEVolume data / sumCEVolume data)) }, ?_, ?_, ?_, ?_⟩
    · simp only [stats, hlen, if_false, hm, Except.map]
    · exact hm
    · simp [hz]
    · intro _; rfl

/-- C6, witness: the snapshot made of the Scenario 1 record (CE volume
1000, PE volume 800). -/
theorem marketPCR_spec_witness :
    ∃ s : Stats, stats [scenario1Record] = .ok (some s) ∧
      marketPCR [scenario1Record] = .ok s.marketPCR ∧
      (s.marketPCR = none ↔ sumCEVolume [scenario1Record] = 0) ∧
      (sumCEVolume [scenario1Record] ≠ 0 →
        s.marketPCR =
          some (.fin (sumPEVolume [scenario1Record] / sumCEVolume [scenario1Record]))) :=
  marketPCR_spec [scenario1Record] (by simp) (by simp [scenario1Record, JSNum.ge])

/-! ### Row normaliser -/

theorem JSNum.orZero_ne_nan (x : JSNum) : x.orZero.isNaN = false := by
  cases x with
  | nan => simp [JSNum.orZero, JSNum.truthy, JSNum.isNaN]
  | fin q =>
    by_cases hq : q = 0 <;> simp [JSNum.orZero, JSNum.truthy, JSNum.isNaN, hq]

theorem JSNum.orZero_fin (q : ℚ) : (JSNum.fin q).orZero = .fin q := by
  by_cases hq : q = 0 <;> simp [JSNum.orZero, JSNum.truthy, hq]

theorem JSNum.orZero_nan : JSNum.nan.orZero = .fin 0 := by
  simp [JSNum.orZero, JSNum.truthy]

theorem normalize_numeric (num : String → JSNum) (row : RawRow) (k : String)
    (hk : k ∈ numericColumns) :
    (normalize num row).numeric k = numField num row k := by
  simp only [numericColumns, List.mem_cons, List.mem_singleton, List.not_mem_nil,
    or_false] at hk
  rcases hk with h | h | h | h | h | h | h | h | h | h <;> subst h <;>
    simp [Record.numeric, normalize]

theorem numberOfString_empty : numberOfString "" = .fin 0 := by
  have h : parseDecimal "" = some (0, 0) := by decide
  simp [numberOfString, h]

/-- C9: each of the ten required numeric fields of a normalised row is the
value of `Number(cell) || 0`, which is never NaN: it is 0 when the column is
absent, when the cell is empty, and when the cell does not convert to a
number, and it is the converted number otherwise.  The normaliser is a total
function, so nothing is raised. -/
theorem numeric_field_default (num : String → JSNum) (hempty : num "" = .fin 0)
    (row : RawRow) (k : String) (hk : k ∈ numericColumns) :
    ((normalize num row).numeric k).isNaN = false ∧
    (row.field k = none → (normalize num row).numeric k = .fin 0) ∧
    (row.field k = some "" → (normalize num row).numeric k = .fin 0) ∧
    (∀ s, row.field k = some s → num s = .nan → (normalize num row).numeric k = .fin 0) ∧
    (∀ s q, row.field k = some s → num s = .fin q →
      (normalize num row).numeric k = .fin q) := by
  rw [normalize_numeric num row k hk]
  unfold numField
  refine ⟨JSNum.orZero_ne_nan _, ?_, ?_, ?_, ?_⟩
  · intro h
    rw [h]
    exact JSNum.orZero_nan
  · intro h
    rw [h]
    simp only [toNumber, hempty]
    exact JSNum.orZero_fin 0
  · intro s h hs
    rw [h]
    simp only [toNumber, hs]
    exact JSNum.orZero_nan
  · intro s q h hs
    rw [h]
    simp only [toNumber, hs]
    exact JSNum.orZero_fin q

/-- C9, witness: the empty `CE_OI` cell of the Scenario 1 row. -/
theorem numeric_field_default_witness :
    ((normalize numberOfString scenario1Row).numeric "CE_OI").isNaN = false ∧
    (scenario1Row.field "CE_OI" = none →
      (normalize numberOfString scenario1Row).numeric "CE_OI" = .fin 0) ∧
    (scenario1Row.field "CE_OI" = some "" →
      (normalize numberOfString scenario1Row).numeric "CE_OI" = .fin 0) ∧
    (∀ s, scenario1Row.field "CE_OI" = some s → numberOfString s = .nan →
      (normalize numberOfString scenario1Row).numeric "CE_OI" = .fin 0) ∧
    (∀ s q, scenario1Row.field "CE_OI" = some s → numberOfString s = .fin q →
      (normalize numberOfString scenario1Row).numeric "CE_OI" = .fin q) :=
  numeric_field_default numberOfString numberOfString_empty scenario1Row "CE_OI" (by decide)

theorem numberOfString_1000 : numberOfString "1000" = .fin 1000 := by
  have h : parseDecimal "1000" = some (1000, 0) := by decide
  simp [numberOfString, h]

theorem numberOfString_800 : numberOfString "800" = .fin 800 := by
  have h : parseDecimal "800" = some (800, 0) := by decide
  simp [numberOfString, h]

theorem numberOfString_500 : numberOfString "500" = .fin 500 := by
  have h : parseDecimal "500" = some (500, 0) := by decide
  simp [numberOfString, h]

theorem numberOfString_0_8 : numberOfString "0.8" = .fin (4 / 5) := by
  have h : parseDecimal "0.8" = some (8, -1) := by decide
  simp [numberOfString, h]
  norm_num

theorem numberOfString_0 : numberOfString "0" = .fin 0 := by
  have h : parseDecimal "0" = some (0, 0) := by decide
  simp [numberOfString, h]

/-- Scenario 1 of the specification, evaluated. -/
theorem scenario1_normalize : normalize numberOfString scenario1Row = scenario1Record := by
  simp [normalize, numField, pcrField, RawRow.field, scenario1Row, scenario1Record,
    List.lookup, cellTruthy, toNumber, numberOfString_1000, numberOfString_800,
    numberOfString_500, numberOfString_0_8, numberOfString_empty, JSNum.orZero_fin,
    JSNum.orZero_nan]

/-- C10: a normalised PCR field is null exactly when the raw column is
absent or its cell is the empty string; every other cell, "0" included, is
converted by `Number` and kept as a number, so the cell "0" gives the number
0 and not null. -/
theorem pcr_field_null_iff (num : String → JSNum) (row : RawRow) :
    ((normalize num row).PCR_OI = none ↔
      row.field "PCR_OI" = none ∨ row.field "PCR_OI" = some "") ∧
    ((normalize num row).PCR_Volume = none ↔
      row.field "PCR_Volume" = none ∨ row.field "PCR_Volume" = some "") ∧
    (∀ s, row.field "PCR_OI" = some s → s ≠ "" →
      (normalize num row).PCR_OI = some (num s)) ∧
    (∀ s, row.field "PCR_Volume" = some s → s ≠ "" →
      (normalize num row).PCR_Volume = some (num s)) ∧
    (normalize numberOfString (pcrRow "TCS" "0")).PCR_OI = some (.fin 0) ∧
    (normalize numberOfString (pcrRow "TCS" "")).PCR_OI = none := by
  refine ⟨?_, ?_, ?_, ?_, ?_, ?_⟩
  · simp only [normalize, pcrField]
    cases h : row.field "PCR_OI" with
    | none => simp [cellTruthy]
    | some s => by_cases hs : s = "" <;> simp [cellTruthy, hs]
  · simp only [normalize, pcrField]
    cases h : row.field "PCR_Volume" with
    | none => simp [cellTruthy]
    | some s => by_cases hs : s = "" <;> simp [cellTruthy, hs]
  · intro s h hs
    simp [normalize, pcrField, h, cellTruthy, hs, toNumber]
  · intro s h hs
    simp [normalize, pcrField, h, cellTruthy, hs, toNumber]
  · simp [pcrRow_PCR_OI, numberOfString_0]
  · simp [pcrRow_PCR_OI]

/-! ### Most active symbols -/

theorem sortInsert_eq_orderedInsert {α : Type} (cmp : α → α → JSNum) (a : α) (l : List α) :
    sortInsert cmp a l =
      List.orderedInsert (fun x y => (cmp x y).gt (.fin 0) = false) a l := by
  induction l with
  | nil => rfl
  | cons b l ih =>
    cases h : (cmp a b).gt (.fin 0) <;> simp [sortInsert, List.orderedInsert, h, ih]

theorem jsSort_eq_insertionSort {α : Type} (cmp : α → α → JSNum) (l : List α) :
    jsSort cmp l = List.insertionSort (fun x y => (cmp x y).gt (.fin 0) = false) l := by
  induction l with
  | nil => rfl
  | cons a l ih => simp [jsSort, List.insertionSort, ih, sortInsert_eq_orderedInsert]

theorem JSNum.orZero_eq_fin (x : JSNum) : x.orZero = .fin x.orZero.toRat := by
  cases x with
  | nan => simp [JSNum.orZero_nan, JSNum.toRat]
  | fin q => simp [JSNum.orZero_fin, JSNum.toRat]

theorem cmpCEVolumeDesc_rel (a b : Record) :
    (cmpCEVolumeDesc a b).gt (.fin 0) = false ↔
      b.CE_Volume.orZero.toRat ≤ a.CE_Volume.orZero.toRat := by
  unfold cmpCEVolumeDesc
  rw [JSNum.orZero_eq_fin a.CE_Volume, JSNum.orZero_eq_fin b.CE_Volume]
  simp [JSNum.sub, JSNum.gt, JSNum.toRat]

theorem sortedByCEVolume_perm (data : List Record) :
    (sortedByCEVolume data).Perm data := by
  unfold sortedByCEVolume
  rw [jsSort_eq_insertionSort]
  exact List.perm_insertionSort _ _

theorem sortedByCEVolume_sorted (data : List Record) :
    (sortedByCEVolume data).Pairwise
      (fun a b => b.CE_Volume.orZero.toRat ≤ a.CE_Volume.orZero.toRat) := by
  unfold sortedByCEVolume
  rw [jsSort_eq_insertionSort]
  haveI : IsTotal Record (fun x y => (cmpCEVolumeDesc x y).gt (.fin 0) = false) :=
    ⟨fun a b => by
      rw [cmpCEVolumeDesc_rel, cmpCEVolumeDesc_rel]
      exact le_total _ _⟩
  haveI : IsTrans Record (fun x y => (cmpCEVolumeDesc x y).gt (.fin 0) = false) :=
    ⟨fun a b c => by
      rw [cmpCEVolumeDesc_rel, cmpCEVolumeDesc_rel, cmpCEVolumeDesc_rel]
      exact fun h1 h2 => le_trans h2 h1⟩
  have h := List.sorted_insertionSort
    (fun x y => (cmpCEVolumeDesc x y).gt (.fin 0) = false) data
  exact List.Pairwise.imp (fun {a b} hab => (cmpCEVolumeDesc_rel a b).1 hab) h

theorem sortedByCEVolume_stable (data : List Record) (a b : Record)
    (hab : List.Sublist [a, b] data) (heq : a.CE_Volume = b.CE_Volume) :
    List.Sublist [a, b] (sortedByCEVolume data) := by
  unfold sortedByCEVolume
  rw [jsSort_eq_insertionSort]
  apply List.pair_sublist_insertionSort _ hab
  rw [cmpCEVolumeDesc_rel, heq]

theorem JSNum.toRat_orZero_of_not_nan (x : JSNum) (h : x.isNaN = false) :
    x = .fin x.orZero.toRat := by
  cases x with
  | nan => simp [JSNum.isNaN] at h
  | fin q => simp [JSNum.orZero_fin, JSNum.toRat]

theorem normalize_CE_Volume_numeric (num : String → JSNum) (rows : List RawRow) :
    ∀ r ∈ rows.map (normalize num), r.CE_Volume.isNaN = false := by
  intro r hr
  rcases List.mem_map.1 hr with ⟨row, _, rfl⟩
  exact JSNum.orZero_ne_nan _

/-- C7: for a snapshot of `n` records with numeric CE volumes, `topActive`
has `min 5 n` entries; together with the records left out it is a
rearrangement of the snapshot (so its entries are drawn from the snapshot
without repetition); it is listed in non-increasing CE-volume order; and
every record left out has a CE volume at most that of every entry. -/
theorem topActive_spec (data : List Record)
    (hnum : ∀ r ∈ data, r.CE_Volume.isNaN = false) :
    (topActive data).length = min 5 data.length ∧
    (topActive data ++ leftOut data).Perm data ∧
    (topActive data).Pairwise (fun a b => a.CE_Volume.ge b.CE_Volume = true) ∧
    (∀ x ∈ topActive data, ∀ y ∈ leftOut data, y.CE_Volume.le x.CE_Volume = true) := by
  have hperm := sortedByCEVolume_perm data
  have hsorted := sortedByCEVolume_sorted data
  have hnum2 : ∀ r ∈ sortedByCEVolume data, r.CE_Volume.isNaN = false :=
    fun r hr => hnum r (hperm.mem_iff.1 hr)
  refine ⟨?_, ?_, ?_, ?_⟩
  · simp [topActive, List.length_take, hperm.length_eq]
  · unfold topActive leftOut
    rw [List.take_append_drop]
    exact hperm
  · unfold topActive
    have h1 := List.Pairwise.take (n := 5) hsorted
    refine List.Pairwise.imp_of_mem ?_ h1
    intro a b ha hb hle
    have ha2 := JSNum.toRat_orZero_of_not_nan _ (hnum2 a (List.mem_of_mem_take ha))
    have hb2 := JSNum.toRat_orZero_of_not_nan _ (hnum2 b (List.mem_of_mem_take hb))
    rw [ha2, hb2]
    simpa [JSNum.ge] using hle
  · intro x hx y hy
    have hrel := List.Sorted.rel_of_mem_take_of_mem_drop hsorted hx hy
    have hx2 := JSNum.toRat_orZero_of_not_nan _ (hnum2 x (List.mem_of_mem_take hx))
    have hy2 := JSNum.toRat_orZero_of_not_nan _ (hnum2 y (List.mem_of_mem_drop hy))
    rw [hx2, hy2]
    simpa [JSNum.le] using hrel

/-- C8: in a snapshot of distinct records, let `a` come before `b` in the
input and have the same CE volume.  If `b` is in `topActive` then so is `a`
(so when only one of the two appears it is the earlier one), and when both
appear `a` is listed before `b`. -/
theorem topActive_stable (data : List Record) (hnd : data.Nodup) (a b : Record)
    (hab : List.Sublist [a, b] data) (heq : a.CE_Volume = b.CE_Volume) :
    (b ∈ topActive data → a ∈ topActive data) ∧
    (a ∈ topActive data → b ∈ topActive data → List.Sublist [a, b] (topActive data)) := by
  have hsub := sortedByCEVolume_stable data a b hab heq
  have hnd2 : (sortedByCEVolume data).Nodup :=
    (sortedByCEVolume_perm data).nodup_iff.2 hnd
  have hdisj := List.disjoint_take_drop hnd2 (le_refl 5)
  have key : b ∈ topActive data → List.Sublist [a, b] (topActive data) := by
    intro hb
    unfold topActive at hb ⊢
    rw [← List.take_append_drop 5 (sortedByCEVolume data)] at hsub
    rcases List.sublist_append_iff.1 hsub with ⟨l1, l2, hl, h1, h2⟩
    have hbdrop : b ∉ (sortedByCEVolume data).drop 5 := fun h => hdisj hb h
    match l1, hl, h1 with
    | [], hl, _ =>
      simp only [List.nil_append] at hl
      subst hl
      exact absurd (h2.subset (by simp)) hbdrop
    | [x], hl, _ =>
      simp only [List.singleton_append, List.cons.injEq] at hl
      obtain ⟨_, hl2⟩ := hl
      subst hl2
      exact absurd (h2.subset (by simp)) hbdrop
    | x :: y :: l, hl, h1 =>
      simp only [List.cons_append, List.cons.injEq] at hl
      obtain ⟨hx, hy, hl3⟩ := hl
      subst hx
      subst hy
      exact (List.cons_sublist_cons.2 (List.cons_sublist_cons.2 (List.nil_sublist _))).trans h1
  exact ⟨fun hb => (key hb).subset (by simp), fun _ hb => key hb⟩

/-- The most active records of the tied snapshot, evaluated: the tie between
`A`, `C` and `F` at volume 10 keeps `A` and `C`, in that order. -/
theorem topActive_tiedSnapshot :
    topActive tiedSnapshot =
      [volRecord "B" 30, volRecord "E" 30, volRecord "D" 20, volRecord "A" 10,
       volRecord "C" 10] ∧
    leftOut tiedSnapshot = [volRecord "F" 10, volRecord "G" 5] := by
  simp [topActive, leftOut, sortedByCEVolume, jsSort, sortInsert, tiedSnapshot,
    cmpCEVolumeDesc, volRecord, JSNum.orZero_fin, JSNum.sub, JSNum.gt]
  norm_num

theorem tiedSnapshot_nodup : tiedSnapshot.Nodup := by
  simp [tiedSnapshot, volRecord]

/-- C7, witness: the tied snapshot of seven records. -/
theorem topActive_spec_witness :
    (topActive tiedSnapshot).length = min 5 tiedSnapshot.length ∧
    (topActive tiedSnapshot ++ leftOut tiedSnapshot).Perm tiedSnapshot ∧
    (topActive tiedSnapshot).Pairwise (fun a b => a.CE_Volume.ge b.CE_Volume = true) ∧
    (∀ x ∈ topActive tiedSnapshot, ∀ y ∈ leftOut tiedSnapshot,
      y.CE_Volume.le x.CE_Volume = true) :=
  topActive_spec tiedSnapshot (by simp [tiedSnapshot, volRecord, JSNum.isNaN])

/-- C8, witness: `C` and `F` of the tied snapshot, both at volume 10. -/
theorem topActive_stable_witness :
    (volRecord "F" 10 ∈ topActive tiedSnapshot → volRecord "C" 10 ∈ topActive tiedSnapshot) ∧
    (volRecord "C" 10 ∈ topActive tiedSnapshot → volRecord "F" 10 ∈ topActive tiedSnapshot →
      List.Sublist [volRecord "C" 10, volRecord "F" 10] (topActive tiedSnapshot)) :=
  topActive_stable tiedSnapshot tiedSnapshot_nodup (volRecord "C" 10) (volRecord "F" 10)
    (by simp [tiedSnapshot, volRecord]) (by simp [volRecord])

/-! ### Dataset index -/

theorem utf16Char_ne_nil (c : Char) : utf16Char c ≠ [] := by
  unfold utf16Char; split <;> simp

theorem utf16_cons_inj (c d : Char) (l m : List Char)
    (h : utf16 (c :: l) = utf16 (d :: m)) : c = d ∧ utf16 l = utf16 m := by
  have hc := c.valid
  have hd := d.valid
  simp only [utf16, utf16Char] at h
  have hcn : c.toNat = c.val.toNat := rfl
  have hdn : d.toNat = d.val.toNat := rfl
  simp only [UInt32.isValidChar, Nat.isValidChar] at hc hd
  rw [← hcn] at hc
  rw [← hdn] at hd
  have key : c.toNat = d.toNat ∧ utf16 l = utf16 m := by
    split at h <;> split at h
    · simp only [List.singleton_append, List.cons.injEq] at h
      exact h
    · simp only [List.singleton_append, List.cons_append, List.nil_append,
        List.cons.injEq] at h
      omega
    · simp only [List.singleton_append, List.cons_append, List.nil_append,
        List.cons.injEq] at h
      omega
    · simp only [List.cons_append, List.nil_append, List.cons.injEq] at h
      refine ⟨?_, h.2.2⟩
      omega
  refine ⟨?_, key.2⟩
  apply Char.ext
  apply UInt32.ext
  exact key.1

theorem utf16_injective : ∀ l m : List Char, utf16 l = utf16 m → l = m
  | [], [], _ => rfl
  | [], d :: m, h => by
    simp only [utf16] at h
    exact absurd (List.append_eq_nil.1 h.symm).1 (utf16Char_ne_nil d)
  | c :: l, [], h => by
    simp only [utf16] at h
    exact absurd (List.append_eq_nil.1 h).1 (utf16Char_ne_nil c)
  | c :: l, d :: m, h => by
    obtain ⟨h1, h2⟩ := utf16_cons_inj c d l m h
    rw [h1, utf16_injective l m h2]

theorem dateKey_injective (x y : Option String) (h : dateKey x = dateKey y) : x = y := by
  cases x with
  | none =>
    cases y with
    | none => rfl
    | some b => simp [dateKey] at h
  | some a =>
    cases y with
    | none => simp [dateKey] at h
    | some b =>
      simp only [dateKey, WithTop.coe_eq_coe] at h
      have := utf16_injective _ _ h
      rw [String.ext this]

theorem sortCompareDefault_rel (x y : Option String) :
    (sortCompareDefault x y).gt (.fin 0) = false ↔ dateKey x ≤ dateKey y := by
  cases x with
  | none =>
    cases y with
    | none => simp [sortCompareDefault, dateKey, JSNum.gt]
    | some b => simp [sortCompareDefault, dateKey, JSNum.gt]
  | some a =>
    cases y with
    | none => simp [sortCompareDefault, dateKey, JSNum.gt]
    | some b =>
      simp only [sortCompareDefault, dateKey, jsStringLt, WithTop.coe_le_coe, String.toList]
      by_cases h1 : utf16 a.data < utf16 b.data
      · simp [h1, JSNum.gt, le_of_lt h1]
      · by_cases h2 : utf16 b.data < utf16 a.data
        · simp [h1, h2, JSNum.gt, not_le.2 h2]
        · simp [h1, h2, JSNum.gt, not_lt.1 h2]

theorem dateBefore_iff (x y : Option String) :
    dateBefore x y = true ↔ dateKey x < dateKey y := by
  cases x with
  | none => simp [dateBefore, dateKey]
  | some a =>
    cases y with
    | none => simp [dateBefore, dateKey, WithTop.coe_lt_top]
    | some b => simp [dateBefore, dateKey, jsStringLt, WithTop.coe_lt_coe]

theorem mem_newSet {α : Type} [DecidableEq α] (x : α) (l : List α) :
    x ∈ newSet l ↔ x ∈ l := by
  induction l with
  | nil => simp [newSet]
  | cons a l ih =>
    by_cases hx : x = a
    · simp [newSet, hx]
    · simp [newSet, List.mem_filter, ih, hx]

theorem nodup_newSet {α : Type} [DecidableEq α] (l : List α) : (newSet l).Nodup := by
  induction l with
  | nil => simp [newSet]
  | cons a l ih =>
    simp only [newSet, List.nodup_cons, List.mem_filter]
    refine ⟨by simp, ih.filter _⟩

theorem dates_perm (data : List Record) :
    (dates data).Perm (newSet (data.map fun r => r.Date)) := by
  unfold dates
  rw [jsSort_eq_insertionSort]
  exact List.perm_insertionSort _ _

theorem dates_sorted (data : List Record) :
    (dates data).Pairwise (fun x y => dateKey x ≤ dateKey y) := by
  unfold dates
  rw [jsSort_eq_insertionSort]
  haveI : IsTotal (Option String) (fun x y => (sortCompareDefault x y).gt (.fin 0) = false) :=
    ⟨fun a b => by
      rw [sortCompareDefault_rel, sortCompareDefault_rel]
      exact le_total _ _⟩
  haveI : IsTrans (Option String) (fun x y => (sortCompareDefault x y).gt (.fin 0) = false) :=
    ⟨fun a b c => by
      rw [sortCompareDefault_rel, sortCompareDefault_rel, sortCompareDefault_rel]
      exact le_trans⟩
  have h := List.sorted_insertionSort
    (fun x y => (sortCompareDefault x y).gt (.fin 0) = false)
    (newSet (data.map fun r => r.Date))
  exact List.Pairwise.imp (fun {a b} hab => (sortCompareDefault_rel a b).1 hab) h

theorem mem_dates (data : List Record) (d : Option String) :
    d ∈ dates data ↔ ∃ r ∈ data, r.Date = d := by
  rw [(dates_perm data).mem_iff, mem_newSet, List.mem_map]

theorem dates_nodup (data : List Record) : (dates data).Nodup :=
  (dates_perm data).nodup_iff.2 (nodup_newSet _)

/-- C11: `dates` is strictly increasing in the lexicographic order of
strings (a record without a date, if any, comes last), hence sorted and free
of duplicates, and its elements are exactly the `Date` values that occur in
the records. -/
theorem dates_spec (data : List Record) :
    (dates data).Pairwise (fun x y => dateBefore x y = true) ∧
    (dates data).Nodup ∧
    (∀ d, d ∈ dates data ↔ ∃ r ∈ data, r.Date = d) := by
  refine ⟨?_, dates_nodup data, mem_dates data⟩
  have h := (dates_sorted data).and (dates_nodup data)
  refine List.Pairwise.imp ?_ h
  intro a b hab
  rw [dateBefore_iff]
  exact lt_of_le_of_ne hab.1 (fun he => hab.2 (dateKey_injective a b he))

theorem pairwise_getLast {α : Type} (R : α → α → Prop) (l : List α) (hl : l ≠ [])
    (h : l.Pairwise R) : ∀ x ∈ l, x = l.getLast hl ∨ R x (l.getLast hl) := by
  intro x hx
  rw [← List.dropLast_append_getLast hl] at hx h
  rcases List.mem_append.1 hx with h1 | h1
  · right
    exact (List.pairwise_append.1 h).2.2 x h1 _ (List.mem_singleton_self _)
  · left
    exact List.mem_singleton.1 h1

theorem dates_eq_nil_iff (data : List Record) : dates data = [] ↔ data = [] := by
  constructor
  · intro h
    cases data with
    | nil => rfl
    | cons r l =>
      have : r.Date ∈ dates (r :: l) := (mem_dates _ _).2 ⟨r, List.mem_cons_self _ _, rfl⟩
      rw [h] at this
      exact absurd this (List.not_mem_nil _)
  · intro h
    subst h
    rfl

theorem latestDate_of_ne_nil (data : List Record) (h : dates data ≠ []) :
    latestDate data = (dates data).getLast h := by
  unfold latestDate
  rw [List.getLast?_eq_getLast _ h]
  rfl

theorem activeDate_none (data : List Record) : activeDate none data = latestDate data := by
  simp [activeDate, cellTruthy]

/-- C12: when every record carries a date, `latestDate` is undefined exactly
for the empty dataset.  For a non-empty dataset it is the date of some
record and no record has a greater date, and the snapshot shown when no date
is selected, the records on `latestDate`, is non-empty. -/
theorem latestDate_spec (data : List Record) :
    ((∀ r ∈ data, r.Date ≠ none) → (latestDate data = none ↔ data = [])) ∧
    (data = [] → latestDate data = none) ∧
    (data ≠ [] → ∃ r ∈ data, r.Date = latestDate data) ∧
    (∀ r ∈ data, r.Date = latestDate data ∨ dateBefore r.Date (latestDate data) = true) ∧
    latestData none data = data.filter (fun r => r.Date == latestDate data) ∧
    (data ≠ [] → latestData none data ≠ []) := by
  have hnil : data = [] → latestDate data = none := by
    intro h
    subst h
    rfl
  have hex : data ≠ [] → ∃ r ∈ data, r.Date = latestDate data := by
    intro hne
    have hd : dates data ≠ [] := fun h => hne ((dates_eq_nil_iff data).1 h)
    rw [latestDate_of_ne_nil data hd]
    exact (mem_dates data _).1 (List.getLast_mem hd)
  have hdata : latestData none data = data.filter (fun r => r.Date == latestDate data) := by
    simp [latestData, activeDate_none]
  refine ⟨?_, hnil, hex, ?_, hdata, ?_⟩
  · intro hdated
    constructor
    · intro h
      by_contra hne
      obtain ⟨r, hr, hrd⟩ := hex hne
      exact hdated r hr (hrd.trans h)
    · exact hnil
  · intro r hr
    have hne : data ≠ [] := List.ne_nil_of_mem hr
    have hd : dates data ≠ [] := fun h => hne ((dates_eq_nil_iff data).1 h)
    rw [latestDate_of_ne_nil data hd]
    have hmem : r.Date ∈ dates data := (mem_dates data _).2 ⟨r, hr, rfl⟩
    have h := (dates_sorted data).and (dates_nodup data)
    rcases pairwise_getLast _ _ hd h _ hmem with h1 | h1
    · exact Or.inl h1
    · right
      rw [dateBefore_iff]
      exact lt_of_le_of_ne h1.1 (fun he => h1.2 (dateKey_injective _ _ he))
  · intro hne
    obtain ⟨r, hr, hrd⟩ := hex hne
    rw [hdata]
    intro hempty
    have : r ∈ data.filter (fun r => r.Date == latestDate data) := by
      rw [List.mem_filter]
      exact ⟨hr, by simp [hrd]⟩
    rw [hempty] at this
    exact absurd this (List.not_mem_nil _)

theorem dates_sampleDataset :
    dates sampleDataset = [some "2024-03-07", some "2024-03-08"] := by
  decide

/-! ### Per-symbol history -/

theorem jsSort_perm {α : Type} (cmp : α → α → JSNum) (l : List α) :
    (jsSort cmp l).Perm l := by
  rw [jsSort_eq_insertionSort]
  exact List.perm_insertionSort _ _

theorem sortInsert_congr {α : Type} (c c2 : α → α → JSNum) (a : α) (l : List α)
    (h : ∀ b ∈ l, (c a b).gt (.fin 0) = (c2 a b).gt (.fin 0)) :
    sortInsert c a l = sortInsert c2 a l := by
  induction l with
  | nil => rfl
  | cons b l ih =>
    have hb := h b (List.mem_cons_self _ _)
    have hl : ∀ x ∈ l, (c a x).gt (.fin 0) = (c2 a x).gt (.fin 0) :=
      fun x hx => h x (List.mem_cons_of_mem _ hx)
    simp only [sortInsert, hb, ih hl]

theorem jsSort_congr {α : Type} (c c2 : α → α → JSNum) (l : List α)
    (h : ∀ a ∈ l, ∀ b ∈ l, (c a b).gt (.fin 0) = (c2 a b).gt (.fin 0)) :
    jsSort c l = jsSort c2 l := by
  induction l with
  | nil => rfl
  | cons a l ih =>
    have hl : ∀ x ∈ l, ∀ y ∈ l, (c x y).gt (.fin 0) = (c2 x y).gt (.fin 0) :=
      fun x hx y hy => h x (List.mem_cons_of_mem _ hx) y (List.mem_cons_of_mem _ hy)
    simp only [jsSort]
    rw [ih hl]
    apply sortInsert_congr
    intro b hb
    exact h a (List.mem_cons_self _ _) b
      (List.mem_cons_of_mem _ ((jsSort_perm c2 l).mem_iff.1 hb))

theorem sortInsertM_ok {α : Type} (cmpM : α → α → Except JSError JSNum)
    (c : α → α → JSNum) (a : α) (l : List α) (h : ∀ b ∈ l, cmpM a b = .ok (c a b)) :
    sortInsertM cmpM a l = .ok (sortInsert c a l) := by
  induction l with
  | nil => rfl
  | cons b l ih =>
    have hb := h b (List.mem_cons_self _ _)
    have hl : ∀ x ∈ l, cmpM a x = .ok (c a x) :=
      fun x hx => h x (List.mem_cons_of_mem _ hx)
    simp only [sortInsertM, sortInsert, hb, ih hl]
    split <;> rfl

theorem jsSortM_ok {α : Type} (cmpM : α → α → Except JSError JSNum)
    (c : α → α → JSNum) (l : List α)
    (h : ∀ a ∈ l, ∀ b ∈ l, cmpM a b = .ok (c a b)) :
    jsSortM cmpM l = .ok (jsSort c l) := by
  induction l with
  | nil => rfl
  | cons a l ih =>
    have hl : ∀ x ∈ l, ∀ y ∈ l, cmpM x y = .ok (c x y) :=
      fun x hx y hy => h x (List.mem_cons_of_mem _ hx) y (List.mem_cons_of_mem _ hy)
    simp only [jsSortM, jsSort, ih hl]
    apply sortInsertM_ok
    intro b hb
    exact h a (List.mem_cons_self _ _) b
      (List.mem_cons_of_mem _ ((jsSort_perm c l).mem_iff.1 hb))

theorem cmpDateKey_gt (a b : Record) (da db : String) (ha : a.Date = some da)
    (hb : b.Date = some db) :
    (cmpDateKey a b).gt (.fin 0) = jsStringLt db da := by
  simp only [cmpDateKey, ha, hb, sortCompareDefault, jsStringLt, String.toList]
  by_cases h1 : utf16 da.data < utf16 db.data
  · have h2 : ¬ utf16 db.data < utf16 da.data := not_lt.2 (le_of_lt h1)
    simp [h1, h2, JSNum.gt]
  · by_cases h2 : utf16 db.data < utf16 da.data
    · simp [h1, h2, JSNum.gt]
    · simp [h1, h2, JSNum.gt]

theorem jsSort_cmpDateKey_sorted (l : List Record) :
    (jsSort cmpDateKey l).Pairwise (fun a b => dateKey a.Date ≤ dateKey b.Date) := by
  rw [jsSort_eq_insertionSort]
  haveI : IsTotal Record (fun x y => (cmpDateKey x y).gt (.fin 0) = false) :=
    ⟨fun a b => by
      simp only [cmpDateKey]
      rw [sortCompareDefault_rel, sortCompareDefault_rel]
      exact le_total _ _⟩
  haveI : IsTrans Record (fun x y => (cmpDateKey x y).gt (.fin 0) = false) :=
    ⟨fun a b c => by
      simp only [cmpDateKey]
      rw [sortCompareDefault_rel, sortCompareDefault_rel, sortCompareDefault_rel]
      exact le_trans⟩
  have h := List.sorted_insertionSort (fun x y => (cmpDateKey x y).gt (.fin 0) = false) l
  exact List.Pairwise.imp (fun {a b} hab => (sortCompareDefault_rel a.Date b.Date).1 hab) h

theorem stockHistory_eq (lc : String → String → JSNum)
    (hlc : ∀ a b, wellFormedDate a = true → wellFormedDate b = true →
      (lc a b).gt (.fin 0) = jsStringLt b a)
    (data : List Record)
    (hdates : ∀ r ∈ data, ∃ d, r.Date = some d ∧ wellFormedDate d = true)
    (symbol : String) (hsym : symbol ≠ "") :
    stockHistory lc data (some symbol) =
      .ok (jsSort cmpDateKey (data.filter fun r => r.Symbol == some symbol)) := by
  have hf : ∀ r ∈ data.filter (fun r => r.Symbol == some symbol),
      ∃ d, r.Date = some d ∧ wellFormedDate d = true :=
    fun r hr => hdates r (List.mem_of_mem_filter hr)
  have h1 : jsSortM (cmpDate lc) (data.filter fun r => r.Symbol == some symbol) =
      .ok (jsSort (fun a b => lc (a.Date.getD "undefined") (b.Date.getD "undefined"))
        (data.filter fun r => r.Symbol == some symbol)) := by
    apply jsSortM_ok
    intro a ha b _
    obtain ⟨da, hda, _⟩ := hf a ha
    simp [cmpDate, hda]
  have h2 : jsSort (fun a b => lc (a.Date.getD "undefined") (b.Date.getD "undefined"))
      (data.filter fun r => r.Symbol == some symbol) =
      jsSort cmpDateKey (data.filter fun r => r.Symbol == some symbol) := by
    apply jsSort_congr
    intro a ha b hb
    obtain ⟨da, hda, hwa⟩ := hf a ha
    obtain ⟨db, hdb, hwb⟩ := hf b hb
    rw [cmpDateKey_gt a b da db hda hdb]
    simp only [hda, hdb, Option.getD_some]
    exact hlc da db hwa hwb
  unfold stockHistory
  rw [h1, h2]
  simp [cellTruthy, hsym]

/-- C13, counterexample: for the empty string as symbol the guard
`!selectedStock` returns the empty history, although the dataset holds a
record whose symbol is the empty string. -/
theorem stockHistory_empty_symbol :
    stockHistory codeUnitCompare [dateRecord "2024-03-07" ""] (some "") = .ok [] ∧
    ([dateRecord "2024-03-07" ""].filter fun r => r.Symbol == some "") =
      [dateRecord "2024-03-07" ""] :=
  ⟨rfl, by decide⟩

/-- C13, amended: with a collation that orders well-formed dates
lexicographically and a dataset whose dates are well-formed `YYYY-MM-DD`, in
any insertion order, the history of a non-empty symbol is returned without
an exception, is a permutation of exactly the records with that symbol, and
is in non-decreasing date order; it is empty when no record has the symbol.
For the empty string and for no selection the history is empty. -/
theorem stockHistory_spec (lc : String → String → JSNum)
    (hlc : ∀ a b, wellFormedDate a = true → wellFormedDate b = true →
      (lc a b).gt (.fin 0) = jsStringLt b a)
    (data : List Record)
    (hdates : ∀ r ∈ data, ∃ d, r.Date = some d ∧ wellFormedDate d = true)
    (symbol : String) (hsym : symbol ≠ "") :
    (∃ l, stockHistory lc data (some symbol) = .ok l ∧
      l.Perm (data.filter fun r => r.Symbol == some symbol) ∧
      l.Pairwise (fun a b => dateBefore a.Date b.Date = true ∨ a.Date = b.Date)) ∧
    ((∀ r ∈ data, r.Symbol ≠ some symbol) → stockHistory lc data (some symbol) = .ok []) ∧
    stockHistory lc data (some "") = .ok [] ∧
    stockHistory lc data none = .ok [] := by
  have heq := stockHistory_eq lc hlc data hdates symbol hsym
  refine ⟨⟨_, heq, jsSort_perm _ _, ?_⟩, ?_, ?_, ?_⟩
  · refine List.Pairwise.imp ?_ (jsSort_cmpDateKey_sorted _)
    intro a b hab
    rcases lt_or_eq_of_le hab with h | h
    · exact Or.inl ((dateBefore_iff _ _).2 h)
    · exact Or.inr (dateKey_injective _ _ h)
  · intro habs
    rw [heq]
    have : (data.filter fun r => r.Symbol == some symbol) = [] := by
      rw [List.filter_eq_nil_iff]
      intro r hr
      simpa using habs r hr
    rw [this]
    rfl
  · simp [stockHistory, cellTruthy]
  · simp [stockHistory, cellTruthy]

theorem codeUnitCompare_gt (a b : String) :
    (codeUnitCompare a b).gt (.fin 0) = jsStringLt b a := by
  simp only [codeUnitCompare, sortCompareDefault, jsStringLt, String.toList]
  by_cases h1 : utf16 a.data < utf16 b.data
  · have h2 : ¬ utf16 b.data < utf16 a.data := not_lt.2 (le_of_lt h1)
    simp [h1, h2, JSNum.gt]
  · by_cases h2 : utf16 b.data < utf16 a.data
    · simp [h1, h2, JSNum.gt]
    · simp [h1, h2, JSNum.gt]

theorem sampleDataset_wellFormed :
    ∀ r ∈ sampleDataset, ∃ d, r.Date = some d ∧ wellFormedDate d = true := by
  intro r hr
  simp only [sampleDataset, List.mem_cons, List.mem_singleton, List.not_mem_nil,
    or_false] at hr
  rcases hr with h | h | h | h <;> subst h
  · exact ⟨"2024-03-08", rfl, by decide⟩
  · exact ⟨"2024-03-07", rfl, by decide⟩
  · exact ⟨"2024-03-07", rfl, by decide⟩
  · exact ⟨"2024-03-08", rfl, by decide⟩

/-- C13, witness: the history of `TCS` in the sample dataset, with code-unit
collation. -/
theorem stockHistory_spec_witness :
    (∃ l, stockHistory codeUnitCompare sampleDataset (some "TCS") = .ok l ∧
      l.Perm (sampleDataset.filter fun r => r.Symbol == some "TCS") ∧
      l.Pairwise (fun a b => dateBefore a.Date b.Date = true ∨ a.Date = b.Date)) ∧
    ((∀ r ∈ sampleDataset, r.Symbol ≠ some "TCS") →
      stockHistory codeUnitCompare sampleDataset (some "TCS") = .ok []) ∧
    stockHistory codeUnitCompare sampleDataset (some "") = .ok [] ∧
    stockHistory codeUnitCompare sampleDataset none = .ok [] :=
  stockHistory_spec codeUnitCompare (fun a b _ _ => codeUnitCompare_gt a b) sampleDataset
    sampleDataset_wellFormed "TCS" (by decide)

/-- The history of `TCS` in the sample dataset, evaluated. -/
theorem stockHistory_sampleDataset :
    stockHistory codeUnitCompare sampleDataset (some "TCS") =
      .ok [dateRecord "2024-03-07" "TCS", dateRecord "2024-03-08" "TCS"] := by
  rfl

/-- C12, witness: the sample dataset, whose latest date is 2024-03-08. -/
theorem latestDate_spec_witness :
    (latestDate sampleDataset = none ↔ sampleDataset = []) ∧
    latestDate sampleDataset = some "2024-03-08" ∧
    latestData none sampleDataset =
      [dateRecord "2024-03-08" "TCS", dateRecord "2024-03-08" "INFY"] :=
  ⟨(latestDate_spec sampleDataset).1 (by decide), by decide, by decide⟩

/-! ### Short dates -/

theorem digit_cases (c : Char) (h : (digitVal c).isSome = true) :
    c = '0' ∨ c = '1' ∨ c = '2' ∨ c = '3' ∨ c = '4' ∨ c = '5' ∨ c = '6' ∨ c = '7' ∨
      c = '8' ∨ c = '9' := by
  have hr : 48 ≤ c.toNat ∧ c.toNat ≤ 57 := by
    unfold digitVal at h
    split at h
    · rename_i hd
      simpa using hd
    · simp at h
  have hc : c = Char.ofNat c.toNat := (Char.ofNat_toNat c).symm
  have : c.toNat = 48 ∨ c.toNat = 49 ∨ c.toNat = 50 ∨ c.toNat = 51 ∨ c.toNat = 52 ∨
      c.toNat = 53 ∨ c.toNat = 54 ∨ c.toNat = 55 ∨ c.toNat = 56 ∨ c.toNat = 57 := by omega
  rcases this with h | h | h | h | h | h | h | h | h | h <;> rw [h] at hc <;> simp [hc]

theorem digit_ne_dash (c : Char) (h : (digitVal c).isSome = true) : c ≠ '-' := by
  rcases digit_cases c h with h | h | h | h | h | h | h | h | h | h <;> rw [h] <;> decide

theorem day_text (d1 d2 : Char) (h1 : (digitVal d1).isSome = true)
    (h2 : (digitVal d2).isSome = true) :
    numberToString (parseInt (some [d1, d2])) = toString (10 * digitOf d1 + digitOf d2) := by
  rcases digit_cases d1 h1 with h | h | h | h | h | h | h | h | h | h <;>
    rcases digit_cases d2 h2 with g | g | g | g | g | g | g | g | g | g <;>
    subst h <;> subst g <;> decide

theorem month_text (m1 m2 : Char) (h1 : (digitVal m1).isSome = true)
    (h2 : (digitVal m2).isSome = true)
    (hm : 1 ≤ 10 * digitOf m1 + digitOf m2 ∧ 10 * digitOf m1 + digitOf m2 ≤ 12) :
    monthAt (parseInt (some [m1, m2])) = monthAbbrev (10 * digitOf m1 + digitOf m2) := by
  rcases digit_cases m1 h1 with h | h | h | h | h | h | h | h | h | h <;>
    rcases digit_cases m2 h2 with g | g | g | g | g | g | g | g | g | g <;>
    subst h <;> subst g <;> first | decide | (exfalso; revert hm; decide)

theorem splitDash_cons_ne (c : Char) (l : List Char) (h : c ≠ '-') :
    splitDash (c :: l) =
      match splitDash l with
      | [] => [[c]]
      | hd :: tl => (c :: hd) :: tl := by
  simp [splitDash, h]

theorem splitDash_wellFormed (y1 y2 y3 y4 m1 m2 d1 d2 : Char)
    (hy1 : y1 ≠ '-') (hy2 : y2 ≠ '-') (hy3 : y3 ≠ '-') (hy4 : y4 ≠ '-')
    (hm1 : m1 ≠ '-') (hm2 : m2 ≠ '-') (hd1 : d1 ≠ '-') (hd2 : d2 ≠ '-') :
    splitDash [y1, y2, y3, y4, '-', m1, m2, '-', d1, d2] =
      [[y1, y2, y3, y4], [m1, m2], [d1, d2]] := by
  simp [splitDash, hy1, hy2, hy3, hy4, hm1, hm2, hd1, hd2]

/-- C18: for a well-formed date `YYYY-MM-DD` with month 01 to 12,
`formatDateShort` returns the day number without leading zero, one space and
the three-letter English abbreviation of the month, and no year; the date
"2024-03-07" gives "7 Mar".  For an empty or absent input it returns the
empty string. -/
theorem formatDateShort_spec (s : String) (hwf : wellFormedDate s = true)
    (hm : 1 ≤ dateMonth s ∧ dateMonth s ≤ 12) :
    formatDateShort (some s) = toString (dateDay s) ++ " " ++ monthAbbrev (dateMonth s) ∧
    formatDateShort (some "2024-03-07") = "7 Mar" ∧
    formatDateShort (some "") = "" ∧
    formatDateShort none = "" := by
  refine ⟨?_, by decide, by decide, by decide⟩
  unfold wellFormedDate at hwf
  split at hwf
  · rename_i y1 y2 y3 y4 h1 m1 m2 h2 d1 d2 heq
    simp only [Bool.and_eq_true, beq_iff_eq] at hwf
    obtain ⟨⟨⟨⟨⟨⟨⟨⟨⟨hy1, hy2⟩, hy3⟩, hy4⟩, hh1⟩, hm1⟩, hm2⟩, hh2⟩, hd1⟩, hd2⟩ := hwf
    subst hh1
    subst hh2
    have hs : s ≠ "" := by
      intro he
      rw [he] at heq
      simp at heq
    have hmonth : dateMonth s = 10 * digitOf m1 + digitOf m2 := by
      simp only [dateMonth, heq]
    have hday : dateDay s = 10 * digitOf d1 + digitOf d2 := by
      simp only [dateDay, heq]
    rw [hmonth] at hm
    rw [hmonth, hday, ← day_text d1 d2 hd1 hd2, ← month_text m1 m2 hm1 hm2 hm]
    simp only [formatDateShort, cellTruthy, Option.getD_some, heq,
      splitDash_wellFormed y1 y2 y3 y4 m1 m2 d1 d2 (digit_ne_dash _ hy1) (digit_ne_dash _ hy2)
        (digit_ne_dash _ hy3) (digit_ne_dash _ hy4) (digit_ne_dash _ hm1)
        (digit_ne_dash _ hm2) (digit_ne_dash _ hd1) (digit_ne_dash _ hd2)]
    simp [hs]
  · simp at hwf

/-- C18, witness: the date of Scenario 1. -/
theorem formatDateShort_spec_witness :
    formatDateShort (some "2024-03-07") =
      toString (dateDay "2024-03-07") ++ " " ++ monthAbbrev (dateMonth "2024-03-07") ∧
    formatDateShort (some "2024-03-07") = "7 Mar" ∧
    formatDateShort (some "") = "" ∧
    formatDateShort none = "" :=
  formatDateShort_spec "2024-03-07" (by decide) (by decide)

/-! ### Double rounding -/

theorem roundEven_close (y : ℚ) : |(roundEven y : ℚ) - y| ≤ 1 / 2 := by
  have h1 := Int.floor_le y
  have h2 := Int.lt_floor_add_one y
  unfold roundEven
  rw [abs_le]
  split_ifs <;> push_cast <;> constructor <;> linarith

theorem roundEven_eq (y : ℚ) (z : ℤ) (h : |y - z| < 1 / 2) : roundEven y = z := by
  have hc := roundEven_close y
  rw [abs_lt] at h
  rw [abs_le] at hc
  have h3 : ((roundEven y : ℤ) : ℚ) - z < 1 := by linarith
  have h4 : (-1 : ℚ) < ((roundEven y : ℤ) : ℚ) - z := by linarith
  have h5 : roundEven y - z < 1 := by exact_mod_cast h3
  have h6 : -1 < roundEven y - z := by exact_mod_cast h4
  omega

theorem log_eq_of_bounds (x : ℚ) (e : ℤ) (h1 : (2 : ℚ) ^ e ≤ |x|) (h2 : |x| < 2 ^ (e + 1)) :
    Int.log 2 |x| = e := by
  have hpos : 0 < |x| := lt_of_lt_of_le (by positivity) h1
  have ha : e ≤ Int.log 2 |x| := by
    have := (Int.zpow_le_iff_le_log (b := 2) (by norm_num) hpos (x := e)).1
    exact this (by exact_mod_cast h1)
  have hb : Int.log 2 |x| < e + 1 := by
    have := (Int.lt_zpow_iff_log_lt (b := 2) (by norm_num) hpos (x := e + 1)).1
    exact this (by exact_mod_cast h2)
  omega

theorem fl_eval (x : ℚ) (e z : ℤ) (h1 : (2 : ℚ) ^ e ≤ |x|) (h2 : |x| < 2 ^ (e + 1))
    (hz : |x / 2 ^ (e - 52) - z| < 1 / 2) : fl x = z * 2 ^ (e - 52) := by
  have hx : x ≠ 0 := by
    intro h
    rw [h, abs_zero] at h1
    have : (0 : ℚ) < 2 ^ e := by positivity
    linarith
  unfold fl
  rw [if_neg hx, log_eq_of_bounds x e h1 h2, roundEven_eq _ z hz]

theorem fl_close (x : ℚ) : |fl x - x| ≤ |x| / 2 ^ 53 := by
  by_cases hx : x = 0
  · simp [fl, hx]
  · have hpos : 0 < |x| := abs_pos.2 hx
    have hlog : (2 : ℚ) ^ Int.log 2 |x| ≤ |x| := by
      have := Int.zpow_log_le_self (b := 2) (by norm_num) hpos
      exact_mod_cast this
    have hu : (0 : ℚ) < 2 ^ (Int.log 2 |x| - 52) := by positivity
    have hc := roundEven_close (x / 2 ^ (Int.log 2 |x| - 52))
    unfold fl
    rw [if_neg hx]
    have hsplit : (2 : ℚ) ^ Int.log 2 |x| = 2 ^ (Int.log 2 |x| - 52) * 2 ^ 52 := by
      have h52 : (2 : ℚ) ^ (52 : ℕ) = 2 ^ (52 : ℤ) := by norm_cast
      rw [h52, ← zpow_add₀ (by norm_num : (2 : ℚ) ≠ 0)]
      congr 1
      ring
    have key : (roundEven (x / 2 ^ (Int.log 2 |x| - 52)) : ℚ) * 2 ^ (Int.log 2 |x| - 52) - x =
        ((roundEven (x / 2 ^ (Int.log 2 |x| - 52)) : ℚ) - x / 2 ^ (Int.log 2 |x| - 52)) *
          2 ^ (Int.log 2 |x| - 52) := by
      field_simp
    rw [key, abs_mul, abs_of_pos hu]
    have h3 : |(roundEven (x / 2 ^ (Int.log 2 |x| - 52)) : ℚ) - x / 2 ^ (Int.log 2 |x| - 52)| *
        2 ^ (Int.log 2 |x| - 52) ≤ 1 / 2 * 2 ^ (Int.log 2 |x| - 52) :=
      mul_le_mul_of_nonneg_right hc (le_of_lt hu)
    rw [le_div_iff₀ (by positivity)]
    rw [hsplit] at hlog
    nlinarith

theorem fl_zero : fl 0 = 0 := by
  simp [fl]

theorem fl_pos (x : ℚ) (h : 0 < x) : 0 < fl x := by
  have hc := fl_close x
  rw [abs_of_pos h, abs_le] at hc
  have h2 : x / 2 ^ 53 ≤ x / 2 := by
    apply div_le_div_of_nonneg_left (le_of_lt h) (by norm_num) (by norm_num)
  linarith [hc.1]

theorem fl_neg (x : ℚ) (h : x < 0) : fl x < 0 := by
  have hc := fl_close x
  rw [abs_of_neg h, abs_le] at hc
  have h2 : -x / 2 ^ 53 ≤ -x / 2 := by
    apply div_le_div_of_nonneg_left (by linarith) (by norm_num) (by norm_num)
  linarith [hc.2]

theorem fl_neg_iff (x : ℚ) : fl x < 0 ↔ x < 0 := by
  constructor
  · intro h
    by_contra hx
    rcases lt_or_eq_of_le (not_lt.1 hx) with h1 | h1
    · exact absurd (fl_pos x h1) (not_lt.2 (le_of_lt h))
    · rw [← h1, fl_zero] at h
      exact lt_irrefl _ h
  · exact fl_neg x

theorem fl_pos_iff (x : ℚ) : 0 < fl x ↔ 0 < x := by
  constructor
  · intro h
    by_contra hx
    rcases lt_or_eq_of_le (not_lt.1 hx) with h1 | h1
    · exact absurd (fl_neg x h1) (not_lt.2 (le_of_lt h))
    · rw [h1, fl_zero] at h
      exact lt_irrefl _ h
  · exact fl_pos x

theorem fl_exact (x : ℚ) (e z : ℤ) (h1 : (2 : ℚ) ^ e ≤ |x|) (h2 : |x| < 2 ^ (e + 1))
    (hz : x / 2 ^ (e - 52) = z) : fl x = x := by
  rw [fl_eval x e z h1 h2 (by rw [hz]; norm_num), ← hz]
  have : (2 : ℚ) ^ (e - 52) ≠ 0 := by positivity
  field_simp

/-! ### Decimal text of a natural number -/

theorem foldl_digits_acc (ds : List Nat) (acc : Nat) :
    ds.foldl (fun n d => 10 * n + d) acc =
      acc * 10 ^ ds.length + ds.foldl (fun n d => 10 * n + d) 0 := by
  induction ds generalizing acc with
  | nil => simp
  | cons d ds ih =>
    simp only [List.foldl_cons, List.length_cons]
    rw [ih (10 * acc + d), ih (10 * 0 + d)]
    ring

theorem natOfDigits_append (a b : List Nat) :
    natOfDigits (a ++ b) = natOfDigits a * 10 ^ b.length + natOfDigits b := by
  unfold natOfDigits
  rw [List.foldl_append, foldl_digits_acc]

theorem natOfDigits_cons (d : Nat) (ds : List Nat) :
    natOfDigits (d :: ds) = d * 10 ^ ds.length + natOfDigits ds := by
  have := natOfDigits_append [d] ds
  simpa [natOfDigits] using this

theorem natOfDigits_replicate_zero (z : Nat) : natOfDigits (List.replicate z 0) = 0 := by
  induction z with
  | zero => rfl
  | succ z ih =>
    rw [List.replicate_succ, natOfDigits_cons, ih]
    simp

theorem digitVal_digitChar (d : Nat) (hd : d < 10) : digitVal (Nat.digitChar d) = some d := by
  interval_cases d <;> rfl

theorem toDigitsCore_spec : ∀ (fuel n : Nat) (ds : List Char), n < fuel →
    (∀ c ∈ ds, (digitVal c).isSome = true) →
    (∀ c ∈ Nat.toDigitsCore 10 fuel n ds, (digitVal c).isSome = true) ∧
    natOfDigits ((Nat.toDigitsCore 10 fuel n ds).map digitOf) =
      n * 10 ^ ds.length + natOfDigits (ds.map digitOf) ∧
    Nat.toDigitsCore 10 fuel n ds ≠ [] ∧
    (∀ k, 1 ≤ k → n < 10 ^ k → (Nat.toDigitsCore 10 fuel n ds).length ≤ ds.length + k)
  | 0, n, ds, hf, _ => absurd hf (Nat.not_lt_zero n)
  | fuel + 1, n, ds, hf, hds => by
    have hd : n % 10 < 10 := Nat.mod_lt _ (by norm_num)
    have hdv := digitVal_digitChar (n % 10) hd
    have hcons : ∀ c ∈ Nat.digitChar (n % 10) :: ds, (digitVal c).isSome = true := by
      intro c hc
      rcases List.mem_cons.1 hc with h1 | h1
      · rw [h1, hdv]; rfl
      · exact hds c h1
    have hval : natOfDigits ((Nat.digitChar (n % 10) :: ds).map digitOf) =
        n % 10 * 10 ^ ds.length + natOfDigits (ds.map digitOf) := by
      rw [List.map_cons, natOfDigits_cons, List.length_map]
      simp [digitOf, hdv]
    simp only [Nat.toDigitsCore]
    split
    · rename_i h0
      refine ⟨hcons, ?_, by simp, ?_⟩
      · rw [hval]
        have : n = n % 10 := by omega
        rw [← this]
      · intro k hk _
        simp only [List.length_cons]
        omega
    · rename_i h0
      have hlt : n / 10 < fuel := by omega
      obtain ⟨i1, i2, i3, i4⟩ := toDigitsCore_spec fuel (n / 10) _ hlt hcons
      refine ⟨i1, ?_, i3, ?_⟩
      · rw [i2, hval, List.length_cons, pow_succ]
        have e : n * 10 ^ ds.length = (10 * (n / 10) + n % 10) * 10 ^ ds.length := by
          rw [Nat.div_add_mod]
        rw [e]
        ring
      · intro k hk hn
        have hk2 : 2 ≤ k := by
          by_contra hc
          have : k = 1 := by omega
          rw [this] at hn
          omega
        have := i4 (k - 1) (by omega) (by
          have h10 : 10 ^ k = 10 ^ (k - 1) * 10 := by
            rw [← pow_succ]; congr 1; omega
          rw [h10] at hn
          exact Nat.div_lt_of_lt_mul (by linarith))
        simp only [List.length_cons] at this
        omega

theorem toString_nat_spec (n : Nat) :
    (∀ c ∈ (toString n).toList, (digitVal c).isSome = true) ∧
    natOfDigits ((toString n).toList.map digitOf) = n ∧
    (toString n).toList ≠ [] ∧
    (∀ k, 1 ≤ k → n < 10 ^ k → (toString n).toList.length ≤ k) := by
  have h := toDigitsCore_spec (n + 1) n [] (Nat.lt_succ_self n) (by simp)
  have he : (toString n).toList = Nat.toDigitsCore 10 (n + 1) n [] := by
    rfl
  rw [he]
  obtain ⟨h1, h2, h3, h4⟩ := h
  refine ⟨h1, ?_, h3, ?_⟩
  · rw [h2]; simp [natOfDigits]
  · intro k hk hn
    simpa using h4 k hk hn

theorem takeDigits_append (cs rest : List Char)
    (h : ∀ c ∈ cs, (digitVal c).isSome = true) :
    takeDigits (cs ++ rest) =
      (cs.map digitOf ++ (takeDigits rest).1, (takeDigits rest).2) := by
  induction cs with
  | nil => simp
  | cons c cs ih =>
    have hc := h c (List.mem_cons_self _ _)
    have ht : ∀ x ∈ cs, (digitVal x).isSome = true :=
      fun x hx => h x (List.mem_cons_of_mem _ hx)
    obtain ⟨d, hd⟩ := Option.isSome_iff_exists.1 hc
    simp [takeDigits, hd, ih ht, digitOf]

theorem digit_not_ws (c : Char) (h : (digitVal c).isSome = true) :
    isStrWhiteSpace c = false := by
  rcases digit_cases c h with h | h | h | h | h | h | h | h | h | h <;> rw [h] <;> decide


theorem toList_append (a b : String) : (a ++ b).toList = a.toList ++ b.toList := by
  simp [String.toList]

theorem padZeros_toList (k : Nat) (s : String) :
    (padZeros k s).toList = List.replicate (k - s.toList.length) '0' ++ s.toList := by
  unfold padZeros
  rw [toList_append]
  rfl

theorem takeDigits_all (cs : List Char) (h : ∀ c ∈ cs, (digitVal c).isSome = true) :
    takeDigits cs = (cs.map digitOf, []) := by
  have h2 := takeDigits_append cs [] h
  have e : takeDigits [] = ([], []) := rfl
  rw [e] at h2
  simpa using h2

theorem parseUnsigned_fixed (n f : Nat) :
    parseUnsigned ((toString (n / 10 ^ f)).toList ++
      (if f = 0 then "" else "." ++ padZeros f (toString (n % 10 ^ f))).toList) =
      some (n, -(f : ℤ)) := by
  obtain ⟨hI1, hI2, hI3, _⟩ := toString_nat_spec (n / 10 ^ f)
  have hIv : ((toString (n / 10 ^ f)).toList.map digitOf) ≠ [] := by
    simpa using hI3
  by_cases hf : f = 0
  · subst hf
    simp only [if_true, pow_zero, Nat.div_one] at *
    have ht : ("" : String).toList = [] := rfl
    rw [ht, List.append_nil]
    unfold parseUnsigned
    rw [takeDigits_all _ hI1]
    cases hm : (toString n).toList.map digitOf with
    | nil => exact absurd hm hIv
    | cons d ds =>
      simp only [List.isEmpty_cons, Bool.false_eq_true, if_false, parseExponent, Option.map_some']
      rw [← hm, hI2]
      simp
  · obtain ⟨hR1, hR2, _, hR4⟩ := toString_nat_spec (n % 10 ^ f)
    have hrlt : n % 10 ^ f < 10 ^ f := Nat.mod_lt _ (by positivity)
    have hlen := hR4 f (by omega) hrlt
    have hF : (padZeros f (toString (n % 10 ^ f))).toList =
        List.replicate (f - (toString (n % 10 ^ f)).toList.length) '0' ++
          (toString (n % 10 ^ f)).toList := padZeros_toList _ _
    have hFd : ∀ c ∈ (padZeros f (toString (n % 10 ^ f))).toList,
        (digitVal c).isSome = true := by
      intro c hc
      rw [hF] at hc
      rcases List.mem_append.1 hc with h1 | h1
      · rw [(List.mem_replicate.1 h1).2]; rfl
      · exact hR1 c h1
    have hFlen : ((padZeros f (toString (n % 10 ^ f))).toList.map digitOf).length = f := by
      rw [List.length_map, hF, List.length_append, List.length_replicate]
      omega
    have hFval : natOfDigits ((padZeros f (toString (n % 10 ^ f))).toList.map digitOf) =
        n % 10 ^ f := by
      rw [hF, List.map_append, natOfDigits_append, List.map_replicate]
      have h0 : digitOf '0' = 0 := rfl
      rw [h0, natOfDigits_replicate_zero, hR2]
      simp
    have hdot : ("." : String).toList = ['.'] := rfl
    simp only [hf, if_false, toList_append, hdot, List.singleton_append]
    unfold parseUnsigned
    have htd : takeDigits ('.' :: (padZeros f (toString (n % 10 ^ f))).toList) =
        ([], '.' :: (padZeros f (toString (n % 10 ^ f))).toList) := by
      simp [takeDigits, digitVal]
    rw [takeDigits_append _ _ hI1, htd]
    simp only [List.append_nil]
    rw [takeDigits_all _ hFd]
    cases hm : (toString (n / 10 ^ f)).toList.map digitOf with
    | nil => exact absurd hm hIv
    | cons d ds =>
      simp only [List.isEmpty_cons, Bool.false_and, Bool.false_eq_true, if_false,
        parseExponent, Option.map_some']
      rw [← hm, natOfDigits_append, hI2, hFval, hFlen]
      have := Nat.div_add_mod n (10 ^ f)
      congr 2
      · rw [mul_comm]; exact this
      · simp

theorem dropWhile_of_all_false {α : Type} (p : α → Bool) (l : List α)
    (h : ∀ c ∈ l, p c = false) : l.dropWhile p = l := by
  cases l with
  | nil => rfl
  | cons c t => simp [List.dropWhile, h c (List.mem_cons_self _ _)]

theorem trimWs_of_no_ws (l : List Char) (h : ∀ c ∈ l, isStrWhiteSpace c = false) :
    trimWs l = l := by
  unfold trimWs
  rw [dropWhile_of_all_false _ l h,
    dropWhile_of_all_false _ l.reverse (fun c hc => h c (List.mem_reverse.1 hc)),
    List.reverse_reverse]

theorem parseDecimal_digit_head (s : String) (c : Char) (t : List Char)
    (hs : s.toList = c :: t) (hc : (digitVal c).isSome = true)
    (hws : ∀ x ∈ s.toList, isStrWhiteSpace x = false) :
    parseDecimal s = (parseUnsigned (c :: t)).map fun (m, e) => ((m : Int), e) := by
  unfold parseDecimal
  rw [trimWs_of_no_ws _ hws, hs]
  rcases digit_cases c hc with h | h | h | h | h | h | h | h | h | h <;> subst h <;> rfl

theorem parseDecimal_minus_head (s : String) (t : List Char)
    (hs : s.toList = '-' :: t)
    (hws : ∀ x ∈ s.toList, isStrWhiteSpace x = false) :
    parseDecimal s = (parseUnsigned t).map fun (m, e) => (-(m : Int), e) := by
  unfold parseDecimal
  rw [trimWs_of_no_ws _ hws, hs]
  rfl

/-- The text of `toFixed`, read back as a decimal literal, is the rounded
integer with `f` decimals and the sign of the operand. -/
theorem toFixed_parse (x : ℚ) (f : Nat) :
    parseDecimal (toFixed x f) =
      some ((if x < 0 then -(roundHalfUp x f : ℤ) else (roundHalfUp x f : ℤ)), -(f : ℤ)) := by
  obtain ⟨hI1, _, hI3, _⟩ := toString_nat_spec (roundHalfUp x f / 10 ^ f)
  obtain ⟨hR1, _, _, _⟩ := toString_nat_spec (roundHalfUp x f % 10 ^ f)
  have hbody := parseUnsigned_fixed (roundHalfUp x f) f
  have hbws : ∀ c ∈ (toString (roundHalfUp x f / 10 ^ f)).toList ++
      (if f = 0 then "" else "." ++ padZeros f (toString (roundHalfUp x f % 10 ^ f))).toList,
      isStrWhiteSpace c = false := by
    intro c hc
    rcases List.mem_append.1 hc with h1 | h1
    · exact digit_not_ws c (hI1 c h1)
    · by_cases hf : f = 0
      · simp [hf] at h1
      · simp only [hf, if_false, toList_append, padZeros_toList] at h1
        rcases List.mem_append.1 h1 with h2 | h2
        · have : c = '.' := by simpa [String.toList] using h2
          rw [this]; decide
        · rcases List.mem_append.1 h2 with h3 | h3
          · rw [(List.mem_replicate.1 h3).2]; decide
          · exact digit_not_ws c (hR1 c h3)
  have htext : (toFixed x f).toList = (if x < 0 then "-" else "").toList ++
      ((toString (roundHalfUp x f / 10 ^ f)).toList ++
        (if f = 0 then "" else "." ++ padZeros f (toString (roundHalfUp x f % 10 ^ f))).toList) := by
    unfold toFixed
    rw [toList_append, toList_append, List.append_assoc]
  by_cases hx : x < 0
  · have hm : ("-" : String).toList = ['-'] := rfl
    simp only [hx, if_true, hm, List.singleton_append] at htext ⊢
    rw [parseDecimal_minus_head _ _ htext, hbody]
    · rfl
    · intro c hc
      rw [htext] at hc
      rcases List.mem_cons.1 hc with h1 | h1
      · rw [h1]; decide
      · exact hbws c h1
  · have hm : ("" : String).toList = [] := rfl
    simp only [hx, if_false, hm, List.nil_append] at htext ⊢
    cases hI : (toString (roundHalfUp x f / 10 ^ f)).toList with
    | nil => exact absurd hI hI3
    | cons c t =>
      have hc : (digitVal c).isSome = true := hI1 c (by rw [hI]; exact List.mem_cons_self _ _)
      have hs : (toFixed x f).toList = c :: (t ++
          (if f = 0 then "" else "." ++ padZeros f
            (toString (roundHalfUp x f % 10 ^ f))).toList) := by
        rw [htext, hI]; rfl
      rw [parseDecimal_digit_head _ c _ hs hc, ← List.cons_append, ← hI, hbody]
      · rfl
      · intro y hy
        rw [htext] at hy
        exact hbws y hy

/-! ### Formatters -/

theorem roundHalfUp_eval (x : ℚ) (f n : Nat)
    (h1 : (n : ℚ) ≤ (if x < 0 then -x else x) * 10 ^ f + 1 / 2)
    (h2 : (if x < 0 then -x else x) * 10 ^ f + 1 / 2 < (n : ℚ) + 1) :
    roundHalfUp x f = n := by
  unfold roundHalfUp
  have : Int.floor ((if x < 0 then -x else x) * 10 ^ f + 1 / 2) = (n : ℤ) := by
    rw [Int.floor_eq_iff]
    exact ⟨by exact_mod_cast h1, by exact_mod_cast h2⟩
  rw [this]
  rfl

theorem roundHalfUp_close (x : ℚ) (f : Nat) :
    |(roundHalfUp x f : ℚ) - |x| * 10 ^ f| ≤ 1 / 2 := by
  have habs : (if x < 0 then -x else x) = |x| := by
    split
    · rw [abs_of_neg (by assumption)]
    · rw [abs_of_nonneg (not_lt.1 (by assumption))]
  have hnn : (0 : ℚ) ≤ |x| * 10 ^ f + 1 / 2 := by positivity
  have hfl : 0 ≤ Int.floor (|x| * 10 ^ f + 1 / 2) := Int.floor_nonneg.2 hnn
  have hcast : (roundHalfUp x f : ℚ) = (Int.floor (|x| * 10 ^ f + 1 / 2) : ℚ) := by
    unfold roundHalfUp
    rw [habs]
    have := Int.toNat_of_nonneg hfl
    exact_mod_cast congrArg (fun z : ℤ => (z : ℚ)) this
  rw [hcast, abs_le]
  have h1 := Int.floor_le (|x| * 10 ^ f + 1 / 2)
  have h2 := Int.lt_floor_add_one (|x| * 10 ^ f + 1 / 2)
  constructor <;> linarith

/-- The text of `toFixed` is its operand rounded to `f` decimals. -/
theorem toFixed_rounded (x : ℚ) (f : Nat) : RoundedTo (toFixed x f) x f :=
  ⟨roundHalfUp x f, roundHalfUp_close x f, toFixed_parse x f⟩

theorem abs_lt_succ_int (z : ℤ) (d : ℕ) (h : ((|z| : ℤ) : ℚ) < (d : ℚ) + 1) : |z| ≤ (d : ℤ) := by
  have : |z| < (d : ℤ) + 1 := by exact_mod_cast h
  omega

/-- A nearest integer to `y` is a nearest integer to `N / D` as soon as `y`
is within `1 / D` of it and `D` is even. -/
theorem rounded_exact (m N D d : ℕ) (hD : D = 2 * d) (hd : 0 < d) (y : ℚ)
    (h1 : |(m : ℚ) - y| ≤ 1 / 2) (h2 : |y - (N : ℚ) / D| < 1 / D) :
    |(m : ℚ) - (N : ℚ) / D| ≤ 1 / 2 := by
  have hDpos : (0 : ℚ) < D := by
    rw [hD]; push_cast; positivity
  have hsum : |(m : ℚ) - (N : ℚ) / D| < 1 / 2 + 1 / D := by
    calc |(m : ℚ) - (N : ℚ) / D| ≤ |(m : ℚ) - y| + |y - (N : ℚ) / D| := abs_sub_le _ _ _
      _ < 1 / 2 + 1 / D := by linarith
  have hz : (((|(D : ℤ) * m - N| : ℤ)) : ℚ) = |(m : ℚ) - (N : ℚ) / D| * D := by
    push_cast
    rw [← abs_of_pos hDpos, ← abs_mul, abs_of_pos hDpos]
    congr 1
    field_simp
    ring
  have hlt : (((|(D : ℤ) * m - N| : ℤ)) : ℚ) < (d : ℚ) + 1 := by
    rw [hz]
    have : |(m : ℚ) - (N : ℚ) / D| * D < (1 / 2 + 1 / D) * D :=
      mul_lt_mul_of_pos_right hsum hDpos
    have e : (1 / 2 + 1 / (D : ℚ)) * D = d + 1 := by
      field_simp
      rw [hD]; push_cast; ring
    linarith
  have hle := abs_lt_succ_int _ d hlt
  have hle2 : (((|(D : ℤ) * m - N| : ℤ)) : ℚ) ≤ (d : ℚ) := by exact_mod_cast hle
  rw [hz] at hle2
  have hd2 : (d : ℚ) = 1 / 2 * D := by
    rw [hD]; push_cast; ring
  rw [hd2] at hle2
  exact le_of_mul_le_mul_right hle2 hDpos

/-- Transfer of `RoundedTo` from the computed double to the exact value. -/
theorem RoundedTo_exact (t : String) (x2 x : ℚ) (k N D d : ℕ) (hD : D = 2 * d) (hd : 0 < d)
    (hx : |x| * 10 ^ k = (N : ℚ) / D) (hsign : x2 < 0 ↔ x < 0)
    (herr : |x2 - x| * 10 ^ k < 1 / D) (h : RoundedTo t x2 k) : RoundedTo t x k := by
  obtain ⟨m, hm, hp⟩ := h
  refine ⟨m, ?_, ?_⟩
  · rw [hx]
    apply rounded_exact m N D d hD hd (|x2| * 10 ^ k) hm
    rw [← hx, ← sub_mul, abs_mul, abs_of_pos (by positivity : (0 : ℚ) < 10 ^ k)]
    exact lt_of_le_of_lt
      (mul_le_mul_of_nonneg_right (abs_abs_sub_abs_le_abs_sub x2 x) (by positivity)) herr
  · rw [hp]
    by_cases hx0 : x < 0
    · simp [hx0, hsign.2 hx0]
    · have : ¬ x2 < 0 := fun h2 => hx0 (hsign.1 h2)
      simp [hx0, this]

theorem filter_groupPairsRev (l : List Char) (h : ∀ c ∈ l, c ≠ ',') :
    (groupPairsRev l).filter (fun c => c != ',') = l := by
  induction l using groupPairsRev.induct with
  | case1 a b c l ih =>
    have ha := h a (by simp)
    have hb := h b (by simp)
    have hl : ∀ x ∈ c :: l, x ≠ ',' := fun x hx => h x (by simp [List.mem_cons] at hx ⊢; tauto)
    simp [groupPairsRev, List.filter_cons, ha, hb, ih hl]
  | case2 l hl =>
    rw [groupPairsRev]
    · exact List.filter_eq_self.2 (fun c hc => by simpa using h c hc)
    · exact hl

theorem filter_groupIndianRev (l : List Char) (h : ∀ c ∈ l, c ≠ ',') :
    (groupIndianRev l).filter (fun c => c != ',') = l := by
  match l, h with
  | a :: b :: c :: d :: l, h =>
    have ha := h a (by simp)
    have hb := h b (by simp)
    have hc := h c (by simp)
    have hl : ∀ x ∈ d :: l, x ≠ ',' := fun x hx => h x (by simp [List.mem_cons] at hx ⊢; tauto)
    simp [groupIndianRev, List.filter_cons, ha, hb, hc, filter_groupPairsRev _ hl]
  | [], _ => rfl
  | [a], h =>
    have ha := h a (by simp)
    simp [groupIndianRev, List.filter_cons, ha]
  | [a, b], h =>
    have ha := h a (by simp)
    have hb := h b (by simp)
    simp [groupIndianRev, List.filter_cons, ha, hb]
  | [a, b, c], h =>
    have ha := h a (by simp)
    have hb := h b (by simp)
    have hc := h c (by simp)
    simp [groupIndianRev, List.filter_cons, ha, hb, hc]

theorem digit_ne_comma (c : Char) (h : (digitVal c).isSome = true) : c ≠ ',' := by
  rcases digit_cases c h with h | h | h | h | h | h | h | h | h | h <;> rw [h] <;> decide

/-- Grouping a natural number only inserts commas between its digits. -/
theorem filter_groupIndian (a : Nat) :
    (groupIndian (toString a)).toList.filter (fun c => c != ',') = (toString a).toList := by
  have hd : ∀ c ∈ (toString a).toList.reverse, c ≠ ',' := fun c hc =>
    digit_ne_comma c ((toString_nat_spec a).1 c (List.mem_reverse.1 hc))
  have e : (groupIndian (toString a)).toList =
      (groupIndianRev (toString a).toList.reverse).reverse := rfl
  rw [e, List.filter_reverse, filter_groupIndianRev _ hd, List.reverse_reverse]

theorem roundHalfUp_int (n : ℤ) : roundHalfUp (n : ℚ) 3 = 1000 * n.natAbs := by
  apply roundHalfUp_eval
  · have : (if (n : ℚ) < 0 then -(n : ℚ) else (n : ℚ)) = ((n.natAbs : ℕ) : ℚ) := by
      rw [Nat.cast_natAbs, Int.cast_abs]
      split
      · rw [abs_of_neg (by assumption)]
      · rw [abs_of_nonneg (not_lt.1 (by assumption))]
    rw [this]
    push_cast
    linarith
  · have : (if (n : ℚ) < 0 then -(n : ℚ) else (n : ℚ)) = ((n.natAbs : ℕ) : ℚ) := by
      rw [Nat.cast_natAbs, Int.cast_abs]
      split
      · rw [abs_of_neg (by assumption)]
      · rw [abs_of_nonneg (not_lt.1 (by assumption))]
    rw [this]
    push_cast
    linarith

/-- The grouped text of an integer, without its commas, is the decimal text
of the integer. -/
theorem toLocaleStringIN_int (n : ℤ) :
    (toLocaleStringIN (n : ℚ)).toList.filter (fun c => c != ',') = (toString n).toList := by
  have hr := roundHalfUp_int n
  have h1 : 1000 * n.natAbs / 1000 = n.natAbs := by omega
  have h2 : 1000 * n.natAbs % 1000 = 0 := by omega
  have hempty : ("" : String).toList = [] := rfl
  unfold toLocaleStringIN
  rw [hr, h1, h2]
  simp only [if_true, toList_append, hempty, List.append_nil, List.filter_append,
    filter_groupIndian]
  cases n with
  | ofNat m =>
    have hn : ¬ (((Int.ofNat m : ℤ) : ℚ) < 0) := by
      simp
    simp only [hn, if_false, hempty, List.filter_nil, List.nil_append]
    rfl
  | negSucc m =>
    have hn : (((Int.negSucc m : ℤ) : ℚ) < 0) := by
      have : (Int.negSucc m : ℤ) < 0 := Int.negSucc_lt_zero m
      exact_mod_cast this
    simp only [hn, if_true]
    rfl

theorem formatNum_crore (F : NumberFormat) (n : ℚ) (h : 10000000 ≤ |n|) :
    formatNum F (some (.fin n)) = F.toFixed (fl (n / 10000000)) 2 ++ " Cr" := by
  simp [formatNum, h]

theorem formatNum_lakh (F : NumberFormat) (n : ℚ) (h1 : 100000 ≤ |n|) (h2 : |n| < 10000000) :
    formatNum F (some (.fin n)) = F.toFixed (fl (n / 100000)) 1 ++ " L" := by
  simp [formatNum, h1, not_le.2 h2]

theorem formatNum_small (F : NumberFormat) (n : ℚ) (h : |n| < 100000) :
    formatNum F (some (.fin n)) = F.toLocaleString n := by
  have h2 : ¬ (10000000 ≤ |n|) := by linarith
  simp [formatNum, not_le.2 h, h2]

theorem formatChange_eq (F : NumberFormat) (n : ℚ) :
    formatChange F (some (.fin n)) =
      (if n > 0 then "+" else "") ++ formatNum F (some (.fin n)) := by
  simp only [formatChange, formatNum]
  split_ifs <;> simp [String.append_assoc]

theorem fl_2_5 : fl (250000 / 100000) = 5 / 2 := by
  have h : fl (250000 / 100000) = (250000 : ℚ) / 100000 := by
    apply fl_exact _ 1 5629499534213120 <;> norm_num [abs_of_nonneg]
  rw [h]; norm_num

theorem fl_1_5 : fl (150000 / 100000) = 3 / 2 := by
  have h : fl (150000 / 100000) = (150000 : ℚ) / 100000 := by
    apply fl_exact _ 0 6755399441055744 <;> norm_num [abs_of_nonneg]
  rw [h]; norm_num

theorem fl_1_25 : fl (12500000 / 10000000) = 5 / 4 := by
  have h : fl (12500000 / 10000000) = (12500000 : ℚ) / 10000000 := by
    apply fl_exact _ 0 5629499534213120 <;> norm_num [abs_of_nonneg]
  rw [h]; norm_num

theorem fl_neg_1_25 : fl (-12500000 / 10000000) = -5 / 4 := by
  have h : fl (-12500000 / 10000000) = (-12500000 : ℚ) / 10000000 := by
    apply fl_exact _ 0 (-5629499534213120) <;> norm_num [abs_of_neg]
  rw [h]; norm_num

theorem fl_2_55 : fl (255000 / 100000) = 5742089524897382 * 2 ^ (1 - 52 : ℤ) := by
  apply fl_eval <;> norm_num [abs_of_nonneg, abs_lt]

theorem fl_1_015 : fl (10150000 / 10000000) = 4571153621781053 * 2 ^ (0 - 52 : ℤ) := by
  apply fl_eval <;> norm_num [abs_of_nonneg, abs_lt]

theorem toFixed_2_5 : toFixed (5 / 2) 1 = "2.5" := by
  have h : roundHalfUp (5 / 2) 1 = 25 := by
    apply roundHalfUp_eval <;> norm_num
  have hs : ¬ ((5 : ℚ) / 2 < 0) := by norm_num
  simp only [toFixed, h, hs, if_false]
  decide

theorem toFixed_1_5 : toFixed (3 / 2) 1 = "1.5" := by
  have h : roundHalfUp (3 / 2) 1 = 15 := by
    apply roundHalfUp_eval <;> norm_num
  have hs : ¬ ((3 : ℚ) / 2 < 0) := by norm_num
  simp only [toFixed, h, hs, if_false]
  decide

theorem toFixed_1_25 : toFixed (5 / 4) 2 = "1.25" := by
  have h : roundHalfUp (5 / 4) 2 = 125 := by
    apply roundHalfUp_eval <;> norm_num
  have hs : ¬ ((5 : ℚ) / 4 < 0) := by norm_num
  simp only [toFixed, h, hs, if_false]
  decide

theorem toFixed_neg_1_25 : toFixed (-5 / 4) 2 = "-1.25" := by
  have h : roundHalfUp (-5 / 4) 2 = 125 := by
    apply roundHalfUp_eval <;> norm_num
  have hs : ((-5 : ℚ) / 4 < 0) := by norm_num
  simp only [toFixed, h, hs, if_true]
  decide

theorem toFixed_2_55 : toFixed (5742089524897382 * 2 ^ (1 - 52 : ℤ)) 1 = "2.5" := by
  have h : roundHalfUp (5742089524897382 * 2 ^ (1 - 52 : ℤ)) 1 = 25 := by
    apply roundHalfUp_eval <;> norm_num
  have hs : ¬ ((5742089524897382 : ℚ) * 2 ^ (1 - 52 : ℤ) < 0) := by norm_num
  simp only [toFixed, h, hs, if_false]
  decide

theorem toFixed_1_015 : toFixed (4571153621781053 * 2 ^ (0 - 52 : ℤ)) 2 = "1.01" := by
  have h : roundHalfUp (4571153621781053 * 2 ^ (0 - 52 : ℤ)) 2 = 101 := by
    apply roundHalfUp_eval <;> norm_num
  have hs : ¬ ((4571153621781053 : ℚ) * 2 ^ (0 - 52 : ℤ) < 0) := by norm_num
  simp only [toFixed, h, hs, if_false]
  decide

theorem toLocaleStringIN_4200 : toLocaleStringIN 4200 = "4,200" := by
  have h : roundHalfUp 4200 3 = 4200000 := by
    apply roundHalfUp_eval <;> norm_num
  have hs : ¬ ((4200 : ℚ) < 0) := by norm_num
  simp only [toLocaleStringIN, h, hs, if_false]
  decide

theorem toLocaleStringIN_neg_50000 : toLocaleStringIN (-50000) = "-50,000" := by
  have h : roundHalfUp (-50000) 3 = 50000000 := by
    apply roundHalfUp_eval <;> norm_num
  have hs : ((-50000 : ℚ) < 0) := by norm_num
  simp only [toLocaleStringIN, h, hs, if_true]
  decide

theorem toLocaleStringIN_0 : toLocaleStringIN 0 = "0" := by
  have h : roundHalfUp 0 3 = 0 := by
    apply roundHalfUp_eval <;> norm_num
  have hs : ¬ ((0 : ℚ) < 0) := by norm_num
  simp only [toLocaleStringIN, h, hs, if_false]
  decide

/-- C14: `formatChange` is `formatNum` with a sign in front: "+" followed by
`formatNum(n)` for `n > 0`, and `formatNum(n)` itself for `n <= 0`, whatever
the magnitude band; `formatChange(250000)` is "+2.5 L",
`formatChange(-50000)` is "-50,000" and `formatChange(0)` is "0". -/
theorem formatChange_spec (F : NumberFormat) (n : ℚ) :
    (0 < n → formatChange F (some (.fin n)) = "+" ++ formatNum F (some (.fin n))) ∧
    (n ≤ 0 → formatChange F (some (.fin n)) = formatNum F (some (.fin n))) ∧
    formatChange jsFormat (some (.fin 250000)) = "+2.5 L" ∧
    formatChange jsFormat (some (.fin (-50000))) = "-50,000" ∧
    formatChange jsFormat (some (.fin 0)) = "0" := by
  refine ⟨?_, ?_, ?_, ?_, ?_⟩
  · intro h
    rw [formatChange_eq]
    simp [h]
  · intro h
    rw [formatChange_eq]
    simp [not_lt.2 h]
  · rw [formatChange_eq, formatNum_lakh _ _ (by norm_num) (by norm_num)]
    simp only [jsFormat, fl_2_5, toFixed_2_5]
    norm_num
    decide
  · rw [formatChange_eq, formatNum_small _ _ (by norm_num [abs_of_neg])]
    simp only [jsFormat, toLocaleStringIN_neg_50000]
    norm_num
  · rw [formatChange_eq, formatNum_small _ _ (by norm_num)]
    simp only [jsFormat, toLocaleStringIN_0]
    norm_num

theorem formatNum_rounded_exact (n : ℤ) (j k : ℕ) (D d : ℕ) (hD : D = 2 * d) (hd : 0 < d)
    (hDk : (10 : ℚ) ^ j = D * 10 ^ k) (hn : |n| < 2 ^ 53) :
    RoundedTo (toFixed (fl ((n : ℚ) / 10 ^ j)) k) ((n : ℚ) / 10 ^ j) k := by
  have hDpos : (0 : ℚ) < D := by
    rw [hD]; push_cast; positivity
  have hnq : |(n : ℚ)| = ((n.natAbs : ℕ) : ℚ) := by
    rw [Nat.cast_natAbs, Int.cast_abs]
  have hlt : |(n : ℚ)| < 2 ^ 53 := by
    have : ((|n| : ℤ) : ℚ) < ((2 ^ 53 : ℤ) : ℚ) := by exact_mod_cast hn
    rw [Int.cast_abs] at this
    exact_mod_cast this
  apply RoundedTo_exact _ (fl ((n : ℚ) / 10 ^ j)) _ k n.natAbs D d hD hd
  · rw [abs_div, abs_of_pos (by positivity : (0 : ℚ) < 10 ^ j), hDk, ← hnq]
    field_simp
    ring
  · rw [fl_neg_iff]
  · have hc := fl_close ((n : ℚ) / 10 ^ j)
    rw [abs_div, abs_of_pos (by positivity : (0 : ℚ) < 10 ^ j), hDk] at hc
    have h1 : |fl ((n : ℚ) / 10 ^ j) - (n : ℚ) / 10 ^ j| * 10 ^ k ≤
        |(n : ℚ)| / (D * 10 ^ k) / 2 ^ 53 * 10 ^ k := by
      rw [hDk]
      exact mul_le_mul_of_nonneg_right hc (by positivity)
    have h2 : |(n : ℚ)| / (D * 10 ^ k) / 2 ^ 53 * 10 ^ k = |(n : ℚ)| / 2 ^ 53 / D := by
      field_simp
      ring
    have h3 : |(n : ℚ)| / 2 ^ 53 / D < 1 / D := by
      apply div_lt_div_of_pos_right _ hDpos
      rw [div_lt_one (by positivity)]
      exact hlt
    linarith
  · exact toFixed_rounded _ _

/-- C15: for an integer `n`, `formatNum(n)` is `n / 10,000,000` to two
decimals followed by " Cr" when `|n| >= 10,000,000`, else `n / 100,000` to
one decimal followed by " L" when `|n| >= 100,000`, else `n` with digit
grouping; the band depends on the magnitude only, for every number format.
With the number format of the runtime and `|n| < 2^53`, the text before the
suffix is the exact quotient rounded to two, respectively one, decimals,
and below 100,000 the text without its commas is the decimal text of `n`.
`formatNum(12500000)` is "1.25 Cr", `formatNum(150000)` is "1.5 L",
`formatNum(4200)` is "4,200", `formatNum(-12500000)` is "-1.25 Cr",
`formatNum(255000)` is "2.5 L" and `formatNum(10150000)` is "1.01 Cr". -/
theorem formatNum_spec (F : NumberFormat) (n : ℤ) :
    (10000000 ≤ |n| →
      formatNum F (some (.fin n)) = F.toFixed (fl ((n : ℚ) / 10000000)) 2 ++ " Cr") ∧
    (100000 ≤ |n| → |n| < 10000000 →
      formatNum F (some (.fin n)) = F.toFixed (fl ((n : ℚ) / 100000)) 1 ++ " L") ∧
    (|n| < 100000 → formatNum F (some (.fin n)) = F.toLocaleString n) ∧
    (10000000 ≤ |n| → |n| < 2 ^ 53 →
      ∃ t, formatNum jsFormat (some (.fin n)) = t ++ " Cr" ∧
        RoundedTo t ((n : ℚ) / 10000000) 2) ∧
    (100000 ≤ |n| → |n| < 10000000 →
      ∃ t, formatNum jsFormat (some (.fin n)) = t ++ " L" ∧
        RoundedTo t ((n : ℚ) / 100000) 1) ∧
    (|n| < 100000 →
      (formatNum jsFormat (some (.fin n))).toList.filter (fun c => c != ',') =
        (toString n).toList) ∧
    formatNum jsFormat (some (.fin 12500000)) = "1.25 Cr" ∧
    formatNum jsFormat (some (.fin 150000)) = "1.5 L" ∧
    formatNum jsFormat (some (.fin 4200)) = "4,200" ∧
    formatNum jsFormat (some (.fin (-12500000))) = "-1.25 Cr" ∧
    formatNum jsFormat (some (.fin 255000)) = "2.5 L" ∧
    formatNum jsFormat (some (.fin 10150000)) = "1.01 Cr" := by
  have hcast : |(n : ℚ)| = ((|n| : ℤ) : ℚ) := (Int.cast_abs).symm
  have hcr : 10000000 ≤ |n| → (10000000 : ℚ) ≤ |(n : ℚ)| := by
    intro h
    rw [hcast]
    exact_mod_cast h
  have hlk : 100000 ≤ |n| → (100000 : ℚ) ≤ |(n : ℚ)| := by
    intro h
    rw [hcast]
    exact_mod_cast h
  have hlk2 : |n| < 10000000 → |(n : ℚ)| < 10000000 := by
    intro h
    rw [hcast]
    exact_mod_cast h
  refine ⟨?_, ?_, ?_, ?_, ?_, ?_, ?_, ?_, ?_, ?_, ?_, ?_⟩
  · intro h
    exact formatNum_crore F _ (hcr h)
  · intro h1 h2
    exact formatNum_lakh F _ (hlk h1) (hlk2 h2)
  · intro h
    apply formatNum_small
    rw [hcast]
    exact_mod_cast h
  · intro h1 h2
    refine ⟨toFixed (fl ((n : ℚ) / 10000000)) 2, ?_, ?_⟩
    · rw [formatNum_crore _ _ (hcr h1)]
      rfl
    · have := formatNum_rounded_exact n 7 2 100000 50000 (by norm_num) (by norm_num)
        (by norm_num) h2
      simpa using this
  · intro h1 h2
    refine ⟨toFixed (fl ((n : ℚ) / 100000)) 1, ?_, ?_⟩
    · rw [formatNum_lakh _ _ (hlk h1) (hlk2 h2)]
      rfl
    · have h53 : |n| < 2 ^ 53 := lt_trans h2 (by norm_num)
      have := formatNum_rounded_exact n 5 1 10000 5000 (by norm_num) (by norm_num)
        (by norm_num) h53
      simpa using this
  · intro h
    have hs : |(n : ℚ)| < 100000 := by
      rw [hcast]
      exact_mod_cast h
    rw [formatNum_small _ _ hs]
    exact toLocaleStringIN_int n
  · rw [formatNum_crore _ _ (by norm_num)]
    simp only [jsFormat, fl_1_25, toFixed_1_25]
    decide
  · rw [formatNum_lakh _ _ (by norm_num) (by norm_num)]
    simp only [jsFormat, fl_1_5, toFixed_1_5]
    decide
  · rw [formatNum_small _ _ (by norm_num)]
    simp only [jsFormat, toLocaleStringIN_4200]
  · rw [formatNum_crore _ _ (by norm_num [abs_of_neg])]
    simp only [jsFormat, fl_neg_1_25, toFixed_neg_1_25]
    decide
  · rw [formatNum_lakh _ _ (by norm_num) (by norm_num)]
    simp only [jsFormat, fl_2_55, toFixed_2_55]
    decide
  · rw [formatNum_crore _ _ (by norm_num)]
    simp only [jsFormat, fl_1_015, toFixed_1_015]
    decide

/-- C16: a null or absent input gives the dash placeholder in `formatNum`,
`formatChange` and `formatCr`, for every number format, and the label "N/A"
in `getSentimentFull`; all four are total functions, so nothing is raised.
NaN gives the dash as well. -/
theorem placeholders_spec (F : NumberFormat) :
    formatNum F none = "-" ∧ formatChange F none = "-" ∧ formatCr F none = "-" ∧
    (getSentimentFull none).label = "N/A" ∧
    formatNum F (some .nan) = "-" ∧ formatChange F (some .nan) = "-" ∧
    formatCr F (some .nan) = "-" :=
  ⟨rfl, rfl, rfl, rfl, rfl, rfl, rfl⟩

theorem roundEven_ge (y : ℚ) (z : ℤ) (h : (z : ℚ) ≤ y) : z ≤ roundEven y := by
  have hf : z ≤ ⌊y⌋ := Int.le_floor.2 h
  unfold roundEven
  split_ifs <;> omega

theorem roundEven_le (y : ℚ) (z : ℤ) (h : y ≤ (z : ℚ)) : roundEven y ≤ z := by
  have hfl : (⌊y⌋ : ℚ) ≤ y := Int.floor_le y
  have hf : ⌊y⌋ ≤ z := by
    have : (⌊y⌋ : ℚ) ≤ z := le_trans hfl h
    exact_mod_cast this
  unfold roundEven
  by_cases h1 : y - ⌊y⌋ < 1 / 2
  · simp only [h1, if_true]
    exact hf
  · have hne : (⌊y⌋ : ℚ) < z := by
      have : (⌊y⌋ : ℚ) < y := by linarith
      exact lt_of_lt_of_le this h
    have hlt : ⌊y⌋ < z := by exact_mod_cast hne
    simp only [h1, if_false]
    split_ifs <;> omega

theorem fl_def_of_ne (x : ℚ) (hx : x ≠ 0) :
    fl x = (roundEven (x / 2 ^ (Int.log 2 |x| - 52)) : ℚ) * 2 ^ (Int.log 2 |x| - 52) := by
  unfold fl
  rw [if_neg hx]

/-- Rounding to a double does not cross the representable bound 1000. -/
theorem fl_abs_ge_1000 (x : ℚ) (h : 1000 ≤ |x|) : 1000 ≤ |fl x| := by
  have hx : x ≠ 0 := by
    intro h0
    rw [h0, abs_zero] at h
    norm_num at h
  have hpos : 0 < |x| := abs_pos.2 hx
  by_cases hbig : (2 : ℚ) ^ (56 : ℤ) ≤ |x|
  · have hc := fl_close x
    have h1 : |x| - |fl x| ≤ |fl x - x| := by
      have := abs_sub_abs_le_abs_sub x (fl x)
      rwa [abs_sub_comm x (fl x)] at this
    have h2 : |x| / 2 ^ 53 ≤ |x| / 2 :=
      div_le_div_of_nonneg_left (le_of_lt hpos) (by norm_num) (by norm_num)
    have h3 : (2 : ℚ) ^ (56 : ℤ) = 72057594037927936 := by norm_num
    rw [h3] at hbig
    linarith
  · have hL : Int.log 2 |x| ≤ 55 := by
      have h56 : |x| < (2 : ℚ) ^ (56 : ℤ) := not_le.1 hbig
      have := (Int.lt_zpow_iff_log_lt (b := 2) (by norm_num) hpos (x := 56)).1
        (by exact_mod_cast h56)
      omega
    obtain ⟨j, hj⟩ : ∃ j : ℕ, (j : ℤ) = 55 - Int.log 2 |x| :=
      ⟨(55 - Int.log 2 |x|).toNat, Int.toNat_of_nonneg (by omega)⟩
    have hu : (0 : ℚ) < 2 ^ (Int.log 2 |x| - 52) := by positivity
    have hz : ((125 * 2 ^ j : ℤ) : ℚ) * 2 ^ (Int.log 2 |x| - 52) = 1000 := by
      push_cast
      have e1 : (2 : ℚ) ^ j = 2 ^ ((j : ℕ) : ℤ) := by norm_cast
      rw [e1, hj, mul_assoc, ← zpow_add₀ (by norm_num : (2 : ℚ) ≠ 0)]
      have e2 : (55 - Int.log 2 |x| + (Int.log 2 |x| - 52) : ℤ) = 3 := by ring
      rw [e2]
      norm_num
    rw [fl_def_of_ne x hx, abs_mul, abs_of_pos hu]
    rcases lt_or_gt_of_ne hx with hneg | hp
    · rw [abs_of_neg hneg] at h
      have hy : x / 2 ^ (Int.log 2 |x| - 52) ≤ ((-(125 * 2 ^ j) : ℤ) : ℚ) := by
        rw [div_le_iff₀ hu]
        push_cast
        push_cast at hz
        linarith
      have hr := roundEven_le _ _ hy
      have hr2 : (roundEven (x / 2 ^ (Int.log 2 |x| - 52)) : ℚ) ≤ ((-(125 * 2 ^ j) : ℤ) : ℚ) := by
        exact_mod_cast hr
      have hneg2 : (roundEven (x / 2 ^ (Int.log 2 |x| - 52)) : ℚ) < 0 := by
        have : ((-(125 * 2 ^ j) : ℤ) : ℚ) < 0 := by
          push_cast
          have : (0 : ℚ) < 125 * 2 ^ j := by positivity
          linarith
        linarith
      rw [abs_of_neg hneg2]
      push_cast at hr2 hz
      nlinarith
    · rw [abs_of_pos hp] at h
      have hy : ((125 * 2 ^ j : ℤ) : ℚ) ≤ x / 2 ^ (Int.log 2 |x| - 52) := by
        rw [le_div_iff₀ hu]
        linarith
      have hr := roundEven_ge _ _ hy
      have hr2 : ((125 * 2 ^ j : ℤ) : ℚ) ≤ (roundEven (x / 2 ^ (Int.log 2 |x| - 52)) : ℚ) := by
        exact_mod_cast hr
      have hpos2 : (0 : ℚ) ≤ (roundEven (x / 2 ^ (Int.log 2 |x| - 52)) : ℚ) := by
        have : (0 : ℚ) ≤ ((125 * 2 ^ j : ℤ) : ℚ) := by
          push_cast
          positivity
        linarith
      rw [abs_of_nonneg hpos2]
      push_cast at hr2 hz
      nlinarith

theorem fl_abs_le (x : ℚ) : |fl x| ≤ |x| + |x| / 2 ^ 53 := by
  have hc := fl_close x
  have h1 : |fl x| - |x| ≤ |fl x - x| := abs_sub_abs_le_abs_sub (fl x) x
  linarith

theorem fl_abs_lt_1000_int (n : ℤ) (h : |n| < 10000000000) :
    |fl ((n : ℚ) / 10000000)| < 1000 := by
  have hle : |n| ≤ 9999999999 := by omega
  have hq : |(n : ℚ)| ≤ 9999999999 := by
    have : ((|n| : ℤ) : ℚ) ≤ ((9999999999 : ℤ) : ℚ) := by exact_mod_cast hle
    rw [Int.cast_abs] at this
    exact_mod_cast this
  have hb := fl_abs_le ((n : ℚ) / 10000000)
  rw [abs_div, abs_of_pos (by norm_num : (0 : ℚ) < 10000000)] at hb
  have h1 : |(n : ℚ)| / 10000000 ≤ 9999999999 / 10000000 :=
    div_le_div_of_nonneg_right hq (by norm_num)
  have h2 : |(n : ℚ)| / 10000000 / 2 ^ 53 ≤ 9999999999 / 10000000 / 2 ^ 53 :=
    div_le_div_of_nonneg_right h1 (by norm_num)
  have h3 : (9999999999 : ℚ) / 10000000 + 9999999999 / 10000000 / 2 ^ 53 < 1000 := by
    norm_num
  linarith

theorem formatCr_kcr (F : NumberFormat) (n : ℚ) (h : 1000 ≤ |fl (n / 10000000)|) :
    formatCr F (some (.fin n)) =
      "₹" ++ F.toFixed (fl (fl (n / 10000000) / 1000)) 1 ++ "K Cr" := by
  simp [formatCr, h]

theorem formatCr_cr (F : NumberFormat) (n : ℚ) (h : |fl (n / 10000000)| < 1000) :
    formatCr F (some (.fin n)) = "₹" ++ F.toFixed (fl (n / 10000000)) 1 ++ " Cr" := by
  simp [formatCr, not_le.2 h]

theorem fl_0_15 : fl (1500000 / 10000000) = 5404319552844595 * 2 ^ (-3 - 52 : ℤ) := by
  apply fl_eval <;> norm_num [abs_of_nonneg, abs_lt]

theorem toFixed_0_15 : toFixed (5404319552844595 * 2 ^ (-3 - 52 : ℤ)) 1 = "0.1" := by
  have h : roundHalfUp (5404319552844595 * 2 ^ (-3 - 52 : ℤ)) 1 = 1 := by
    apply roundHalfUp_eval <;> norm_num
  have hs : ¬ ((5404319552844595 : ℚ) * 2 ^ (-3 - 52 : ℤ) < 0) := by norm_num
  simp only [toFixed, h, hs, if_false]
  decide

theorem fl_crore_2_5 : fl (25000000 / 10000000) = 5 / 2 := by
  have h : fl (25000000 / 10000000) = (25000000 : ℚ) / 10000000 := by
    apply fl_exact _ 1 5629499534213120 <;> norm_num [abs_of_nonneg]
  rw [h]; norm_num

theorem fl_crore_12345 :
    fl (123456789012 / 10000000) = 6787108752329116 * 2 ^ (13 - 52 : ℤ) := by
  apply fl_eval <;> norm_num [abs_of_nonneg, abs_lt]

theorem fl_kcr_12_3 :
    fl (6787108752329116 * 2 ^ (13 - 52 : ℤ) / 1000) =
      6949999362385015 * 2 ^ (3 - 52 : ℤ) := by
  apply fl_eval <;> norm_num [abs_of_nonneg, abs_lt]

theorem toFixed_kcr_12_3 : toFixed (6949999362385015 * 2 ^ (3 - 52 : ℤ)) 1 = "12.3" := by
  have h : roundHalfUp (6949999362385015 * 2 ^ (3 - 52 : ℤ)) 1 = 123 := by
    apply roundHalfUp_eval <;> norm_num
  have hs : ¬ ((6949999362385015 : ℚ) * 2 ^ (3 - 52 : ℤ) < 0) := by norm_num
  simp only [toFixed, h, hs, if_false]
  decide

theorem formatCr_kcr_exact (z : ℤ) (h2 : |z| ≤ 2 ^ 51) :
    RoundedTo (toFixed (fl (fl ((z : ℚ) / 10000000) / 1000)) 1)
      ((z : ℚ) / 10000000 / 1000) 1 := by
  have hzq : |(z : ℚ)| = ((z.natAbs : ℕ) : ℚ) := by
    rw [Nat.cast_natAbs, Int.cast_abs]
  have hle : |(z : ℚ)| ≤ 2 ^ 51 := by
    have : ((|z| : ℤ) : ℚ) ≤ ((2 ^ 51 : ℤ) : ℚ) := by exact_mod_cast h2
    rw [Int.cast_abs] at this
    exact_mod_cast this
  have hnn : (0 : ℚ) ≤ |(z : ℚ)| := abs_nonneg _
  apply RoundedTo_exact _ (fl (fl ((z : ℚ) / 10000000) / 1000)) _ 1 z.natAbs
    1000000000 500000000 (by norm_num) (by norm_num)
  · rw [abs_div, abs_div, abs_of_pos (by norm_num : (0 : ℚ) < 10000000),
      abs_of_pos (by norm_num : (0 : ℚ) < 1000), ← hzq]
    field_simp
    ring
  · have key : ∀ a : ℚ, a / 1000 < 0 ↔ a < 0 := fun a => by
      rw [div_lt_iff₀ (by norm_num : (0 : ℚ) < 1000), zero_mul]
    rw [fl_neg_iff, key, fl_neg_iff, key]
  · have hq : |(z : ℚ) / 10000000| = |(z : ℚ)| / 10000000 := by
      rw [abs_div, abs_of_pos (by norm_num : (0 : ℚ) < 10000000)]
    have hv := fl_close ((z : ℚ) / 10000000)
    have hvabs := fl_abs_le ((z : ℚ) / 10000000)
    have hw := fl_close (fl ((z : ℚ) / 10000000) / 1000)
    rw [hq] at hv hvabs
    have ha : |fl ((z : ℚ) / 10000000) / 1000| = |fl ((z : ℚ) / 10000000)| / 1000 := by
      rw [abs_div, abs_of_pos (by norm_num : (0 : ℚ) < 1000)]
    rw [ha] at hw
    have hsplit : |fl (fl ((z : ℚ) / 10000000) / 1000) - (z : ℚ) / 10000000 / 1000| ≤
        |fl (fl ((z : ℚ) / 10000000) / 1000) - fl ((z : ℚ) / 10000000) / 1000| +
          |fl ((z : ℚ) / 10000000) - (z : ℚ) / 10000000| / 1000 := by
      have e : |fl ((z : ℚ) / 10000000) / 1000 - (z : ℚ) / 10000000 / 1000| =
          |fl ((z : ℚ) / 10000000) - (z : ℚ) / 10000000| / 1000 := by
        rw [← sub_div, abs_div, abs_of_pos (by norm_num : (0 : ℚ) < 1000)]
      rw [← e]
      exact abs_sub_le _ _ _
    have h53 : (2 : ℚ) ^ 53 = 9007199254740992 := by norm_num
    have h51 : (2 : ℚ) ^ 51 = 2251799813685248 := by norm_num
    rw [h53] at hv hvabs hw
    rw [h51] at hle
    norm_num
    norm_num at hv hvabs hw hsplit
    linarith
  · exact toFixed_rounded _ _

/-- C17: `formatCr(n)` is the rupee sign followed by the crore value
`n / 10,000,000` (as the division computes it, within one part in `2^53` of
the exact quotient): when its magnitude is at least 1000, which is the case
for `|n| >= 10^10`, it is divided by 1000, rounded to one decimal and
followed by "K Cr"; otherwise it is rounded to one decimal and followed by
" Cr".  For an integer amount `n` the text is the exact crore value (divided
by 1000 in the upper band, up to `2^51`) rounded to one decimal.
25,000,000 gives "₹2.5 Cr", 1,500,000 gives "₹0.1 Cr" and 123,456,789,012
gives "₹12.3K Cr". -/
theorem formatCr_spec (F : NumberFormat) (n : ℚ) :
    (1000 ≤ |fl (n / 10000000)| →
      formatCr F (some (.fin n)) =
        "₹" ++ F.toFixed (fl (fl (n / 10000000) / 1000)) 1 ++ "K Cr") ∧
    (|fl (n / 10000000)| < 1000 →
      formatCr F (some (.fin n)) = "₹" ++ F.toFixed (fl (n / 10000000)) 1 ++ " Cr") ∧
    (∃ rest, formatCr F (some (.fin n)) = "₹" ++ rest) ∧
    (10000000000 ≤ |n| → 1000 ≤ |fl (n / 10000000)|) ∧
    |fl (n / 10000000) - n / 10000000| ≤ |n / 10000000| / 2 ^ 53 ∧
    (1000 ≤ |fl (n / 10000000)| →
      ∃ t, formatCr jsFormat (some (.fin n)) = "₹" ++ t ++ "K Cr" ∧
        RoundedTo t (fl (fl (n / 10000000) / 1000)) 1) ∧
    (|fl (n / 10000000)| < 1000 →
      ∃ t, formatCr jsFormat (some (.fin n)) = "₹" ++ t ++ " Cr" ∧
        RoundedTo t (fl (n / 10000000)) 1) ∧
    (∀ z : ℤ, 10000000000 ≤ |z| → |z| ≤ 2 ^ 51 →
      ∃ t, formatCr jsFormat (some (.fin z)) = "₹" ++ t ++ "K Cr" ∧
        RoundedTo t ((z : ℚ) / 10000000 / 1000) 1) ∧
    (∀ z : ℤ, |z| < 10000000000 →
      ∃ t, formatCr jsFormat (some (.fin z)) = "₹" ++ t ++ " Cr" ∧
        RoundedTo t ((z : ℚ) / 10000000) 1) ∧
    formatCr jsFormat (some (.fin 25000000)) = "₹2.5 Cr" ∧
    formatCr jsFormat (some (.fin 1500000)) = "₹0.1 Cr" ∧
    formatCr jsFormat (some (.fin 123456789012)) = "₹12.3K Cr" := by
  have hthr : ∀ x : ℚ, 10000000000 ≤ |x| → 1000 ≤ |fl (x / 10000000)| := by
    intro x h
    apply fl_abs_ge_1000
    rw [abs_div, abs_of_pos (by norm_num : (0 : ℚ) < 10000000),
      le_div_iff₀ (by norm_num : (0 : ℚ) < 10000000)]
    linarith
  refine ⟨formatCr_kcr F n, formatCr_cr F n, ?_, hthr n, fl_close _, ?_, ?_, ?_, ?_,
    ?_, ?_, ?_⟩
  · by_cases h : 1000 ≤ |fl (n / 10000000)|
    · exact ⟨F.toFixed (fl (fl (n / 10000000) / 1000)) 1 ++ "K Cr", by
        rw [formatCr_kcr F n h, String.append_assoc]⟩
    · exact ⟨F.toFixed (fl (n / 10000000)) 1 ++ " Cr", by
        rw [formatCr_cr F n (not_le.1 h), String.append_assoc]⟩
  · intro h
    exact ⟨_, formatCr_kcr jsFormat n h, toFixed_rounded _ _⟩
  · intro h
    exact ⟨_, formatCr_cr jsFormat n h, toFixed_rounded _ _⟩
  · intro z h1 h2
    have hq : (10000000000 : ℚ) ≤ |(z : ℚ)| := by
      have : ((10000000000 : ℤ) : ℚ) ≤ ((|z| : ℤ) : ℚ) := by exact_mod_cast h1
      rw [Int.cast_abs] at this
      exact_mod_cast this
    exact ⟨_, formatCr_kcr jsFormat _ (hthr _ hq), formatCr_kcr_exact z h2⟩
  · intro z h1
    refine ⟨_, formatCr_cr jsFormat _ (fl_abs_lt_1000_int z h1), ?_⟩
    have h53 : |z| < 2 ^ 53 := lt_trans h1 (by norm_num)
    have := formatNum_rounded_exact z 7 1 1000000 500000 (by norm_num) (by norm_num)
      (by norm_num) h53
    simpa [jsFormat] using this
  · have h2 : |fl ((25000000 : ℚ) / 10000000)| < 1000 := by
      rw [fl_crore_2_5, abs_of_nonneg (by norm_num)]
      norm_num
    rw [formatCr_cr _ _ h2]
    simp only [jsFormat, fl_crore_2_5, toFixed_2_5]
    decide
  · have h2 : |fl ((1500000 : ℚ) / 10000000)| < 1000 := by
      rw [fl_0_15, abs_of_nonneg (by norm_num)]
      norm_num
    rw [formatCr_cr _ _ h2]
    simp only [jsFormat, fl_0_15, toFixed_0_15]
    decide
  · have h2 : 1000 ≤ |fl ((123456789012 : ℚ) / 10000000)| := by
      rw [fl_crore_12345, abs_of_nonneg (by norm_num)]
      norm_num
    rw [formatCr_kcr _ _ h2]
    simp only [jsFormat, fl_crore_12345, fl_kcr_12_3, toFixed_kcr_12_3]
    decide

/-! ### Day-over-day change -/

theorem changePct_numbers (F : NumberFormat) (c p : ℚ) (hc : c ≠ 0) (hp : p ≠ 0) :
    changePct F (some (.fin c)) (some (.fin p)) =
      .ok (some (F.toFixed (changeValue c p) 1)) := by
  have hp2 : |p| ≠ 0 := abs_ne_zero.2 hp
  simp [changePct, optTruthy, JSNum.truthy, strictEqZero, hc, hp, operand, JSNum.fsub,
    JSNum.abs, JSNum.fdiv, hp2, Except.map, JSNum.fmul, toFixedJS, changeValue]

theorem changePct_never_fails (F : NumberFormat) (curr prev : Option JSNum) :
    ∃ r, changePct F curr prev = .ok r := by
  cases prev with
  | none => exact ⟨none, by simp [changePct, optTruthy]⟩
  | some p =>
    cases p with
    | nan => exact ⟨none, by simp [changePct, optTruthy, JSNum.truthy]⟩
    | fin p =>
      by_cases hp : p = 0
      · exact ⟨none, by simp [changePct, optTruthy, JSNum.truthy, hp]⟩
      · cases curr with
        | none => exact ⟨none, by simp [changePct, optTruthy]⟩
        | some c =>
          cases c with
          | nan => exact ⟨none, by simp [changePct, optTruthy, JSNum.truthy]⟩
          | fin c =>
            by_cases hc : c = 0
            · exact ⟨none, by simp [changePct, optTruthy, JSNum.truthy, hc]⟩
            · exact ⟨_, changePct_numbers F c p hc hp⟩

theorem digitChar_ne_dash (k : Nat) (hk : k < 10) : Nat.digitChar k ≠ '-' := by
  interval_cases k <;> decide

theorem toDigitsCore_no_dash : ∀ (fuel n : Nat) (ds : List Char),
    (∀ c ∈ ds, c ≠ '-') → ∀ c ∈ Nat.toDigitsCore 10 fuel n ds, c ≠ '-'
  | 0, _, ds, h => by
    simpa [Nat.toDigitsCore] using h
  | fuel + 1, n, ds, h => by
    have hcons : ∀ c ∈ Nat.digitChar (n % 10) :: ds, c ≠ '-' := by
      intro c hc
      rcases List.mem_cons.1 hc with h1 | h1
      · rw [h1]; exact digitChar_ne_dash _ (Nat.mod_lt _ (by norm_num))
      · exact h c h1
    simp only [Nat.toDigitsCore]
    split
    · exact hcons
    · exact toDigitsCore_no_dash fuel _ _ hcons

theorem natToString_no_dash (n : Nat) : '-' ∉ (toString n).toList := by
  intro h
  have : ∀ c ∈ Nat.toDigitsCore 10 (n + 1) n [], c ≠ '-' :=
    toDigitsCore_no_dash (n + 1) n [] (by simp)
  exact this '-' (by simpa [toString, Nat.repr, Nat.toDigits, String.toList] using h) rfl

theorem toFixed_minus (x : ℚ) (f : Nat) : '-' ∈ (toFixed x f).toList ↔ x < 0 := by
  unfold toFixed
  by_cases hx : x < 0
  · simp [hx, String.toList]
  · simp only [hx, if_false, iff_false]
    intro h
    have h1 := natToString_no_dash (roundHalfUp x f / 10 ^ f)
    have h2 := natToString_no_dash (roundHalfUp x f % 10 ^ f)
    by_cases hf : f = 0
    · simp [hf, String.toList] at h h1
      exact h1 h
    · simp only [hf, if_false, String.toList, String.data_append, List.mem_append,
        padZeros] at h h1 h2
      rcases h with (h | h) | h
      · simp at h
      · exact h1 h
      · rcases h with h | h | h
        · simp at h
        · simp at h
        · exact h2 h

theorem fl_eq_zero_iff (x : ℚ) : fl x = 0 ↔ x = 0 := by
  constructor
  · intro h
    by_contra hx
    rcases lt_or_gt_of_ne hx with h1 | h1
    · have := fl_neg x h1
      rw [h] at this
      exact lt_irrefl _ this
    · have := fl_pos x h1
      rw [h] at this
      exact lt_irrefl _ this
  · intro h
    rw [h, fl_zero]

theorem changeValue_sign (c p : ℚ) (hp : p ≠ 0) :
    (0 < changeValue c p ↔ 0 < c - p) ∧
    (changeValue c p < 0 ↔ c - p < 0) ∧
    (changeValue c p = 0 ↔ c - p = 0) := by
  have hpos : 0 < |p| := abs_pos.2 hp
  unfold changeValue
  refine ⟨?_, ?_, ?_⟩
  · rw [fl_pos_iff, mul_pos_iff_of_pos_right (by norm_num : (0 : ℚ) < 100), fl_pos_iff,
      div_pos_iff_of_pos_right hpos, fl_pos_iff]
  · have k1 : ∀ a : ℚ, a * 100 < 0 ↔ a < 0 := fun a => by
      constructor <;> intro h <;> linarith
    have k2 : ∀ a : ℚ, a / |p| < 0 ↔ a < 0 := fun a => by
      rw [div_lt_iff₀ hpos, zero_mul]
    rw [fl_neg_iff, k1, fl_neg_iff, k2, fl_neg_iff]
  · rw [fl_eq_zero_iff, mul_eq_zero, fl_eq_zero_iff, div_eq_zero_iff, fl_eq_zero_iff]
    constructor
    · rintro ((h | h) | h)
      · exact h
      · exact absurd h (ne_of_gt hpos)
      · norm_num at h
    · intro h
      exact Or.inl (Or.inl h)

theorem exactChange_sign (c p : ℚ) (hp : p ≠ 0) :
    (0 < 100 * (c - p) / |p| ↔ 0 < c - p) ∧
    (100 * (c - p) / |p| < 0 ↔ c - p < 0) ∧
    (100 * (c - p) / |p| = 0 ↔ c - p = 0) := by
  have hpos : 0 < |p| := abs_pos.2 hp
  have hk : 0 < 100 / |p| := div_pos (by norm_num) hpos
  have hq : 100 * (c - p) / |p| = (c - p) * (100 / |p|) := by ring
  rw [hq]
  refine ⟨mul_pos_iff_of_pos_right hk, ?_, ?_⟩
  · constructor
    · intro h
      by_contra hn
      have := mul_nonneg (not_lt.1 hn) (le_of_lt hk)
      linarith
    · intro h
      exact mul_neg_of_neg_of_pos h hk
  · rw [mul_eq_zero]
    constructor
    · rintro (h | h)
      · exact h
      · exact absurd h (ne_of_gt hk)
    · intro h
      exact Or.inl h

/-- The double passed to `toFixed` is within four parts in `2^53` of the
exact percentage. -/
theorem changeValue_close (c p : ℚ) (hp : p ≠ 0) :
    abs (changeValue c p - 100 * (c - p) / |p|) ≤ |c - p| / |p| * 400 / 2 ^ 53 := by
  have hpos : 0 < |p| := abs_pos.2 hp
  have hA : 0 ≤ |c - p| / |p| := div_nonneg (abs_nonneg _) (le_of_lt hpos)
  have h1 := fl_close (c - p)
  have e1 : abs (fl (c - p) / |p| - (c - p) / |p|) ≤ |c - p| / |p| / 2 ^ 53 := by
    rw [← sub_div, abs_div, abs_of_pos hpos, div_right_comm]
    exact div_le_div_of_nonneg_right h1 (le_of_lt hpos)
  have habs : abs ((c - p) / |p|) = |c - p| / |p| := by
    rw [abs_div, abs_of_pos hpos]
  have nb : abs (fl (c - p) / |p|) ≤ |c - p| / |p| + |c - p| / |p| / 2 ^ 53 := by
    have := abs_sub_abs_le_abs_sub (fl (c - p) / |p|) ((c - p) / |p|)
    rw [habs] at this
    linarith
  have h2 := fl_close (fl (c - p) / |p|)
  have nfb := fl_abs_le (fl (c - p) / |p|)
  have h3 := fl_close (fl (fl (c - p) / |p|) * 100)
  have n3 : abs (fl (fl (c - p) / |p|) * 100) = abs (fl (fl (c - p) / |p|)) * 100 := by
    rw [abs_mul, abs_of_pos (by norm_num : (0 : ℚ) < 100)]
  rw [n3] at h3
  have e3 : abs (fl (fl (c - p) / |p|) * 100 - 100 * (c - p) / |p|) ≤
      (abs (fl (fl (c - p) / |p|) - fl (c - p) / |p|) +
        abs (fl (c - p) / |p| - (c - p) / |p|)) * 100 := by
    have e : fl (fl (c - p) / |p|) * 100 - 100 * (c - p) / |p| =
        (fl (fl (c - p) / |p|) - (c - p) / |p|) * 100 := by ring
    rw [e, abs_mul, abs_of_pos (by norm_num : (0 : ℚ) < 100)]
    exact mul_le_mul_of_nonneg_right (abs_sub_le _ _ _) (by norm_num)
  have tri : abs (changeValue c p - 100 * (c - p) / |p|) ≤
      abs (fl (fl (fl (c - p) / |p|) * 100) - fl (fl (c - p) / |p|) * 100) +
        abs (fl (fl (c - p) / |p|) * 100 - 100 * (c - p) / |p|) := by
    unfold changeValue
    exact abs_sub_le _ _ _
  have h53 : (2 : ℚ) ^ 53 = 9007199254740992 := by norm_num
  rw [h53] at h1 e1 nb h2 nfb h3 ⊢
  linarith

theorem changePct_exact (c p : ℤ) (hp : p ≠ 0) (hcp : |c - p| ≤ 10 ^ 12) :
    RoundedTo (toFixed (changeValue c p) 1) (100 * ((c : ℚ) - p) / |(p : ℚ)|) 1 := by
  have hpq : (p : ℚ) ≠ 0 := by exact_mod_cast hp
  have hpos : 0 < |(p : ℚ)| := abs_pos.2 hpq
  have hpn : |(p : ℚ)| = ((p.natAbs : ℕ) : ℚ) := by
    rw [Nat.cast_natAbs, Int.cast_abs]
  have han : |(c : ℚ) - p| = (((c - p).natAbs : ℕ) : ℚ) := by
    rw [Nat.cast_natAbs, Int.cast_abs]
    push_cast
    rfl
  have hale : |(c : ℚ) - p| ≤ 10 ^ 12 := by
    have : ((|c - p| : ℤ) : ℚ) ≤ ((10 ^ 12 : ℤ) : ℚ) := by exact_mod_cast hcp
    rw [Int.cast_abs] at this
    push_cast at this
    exact this
  have hd : 0 < p.natAbs := Int.natAbs_pos.2 hp
  apply RoundedTo_exact _ (changeValue c p) _ 1 (2000 * (c - p).natAbs) (2 * p.natAbs)
    p.natAbs rfl hd
  · have e : abs (100 * ((c : ℚ) - p) / |(p : ℚ)|) = 100 * |(c : ℚ) - p| / |(p : ℚ)| := by
      rw [abs_div, abs_mul, abs_abs, abs_of_pos (by norm_num : (0 : ℚ) < 100)]
    rw [e, han, hpn]
    have : ((p.natAbs : ℕ) : ℚ) ≠ 0 := by
      rw [← hpn]; exact ne_of_gt hpos
    push_cast
    field_simp
    ring
  · rw [(changeValue_sign c p hpq).2.1, (exactChange_sign c p hpq).2.1]
  · have hc := changeValue_close c p hpq
    have h1 : abs (changeValue c p - 100 * ((c : ℚ) - p) / |(p : ℚ)|) * 10 ^ 1 ≤
        |(c : ℚ) - p| / |(p : ℚ)| * 400 / 2 ^ 53 * 10 ^ 1 :=
      mul_le_mul_of_nonneg_right hc (by norm_num)
    have h2 : |(c : ℚ) - p| / |(p : ℚ)| * 400 / 2 ^ 53 * 10 ^ 1 =
        |(c : ℚ) - p| * 4000 / 2 ^ 53 / |(p : ℚ)| := by
      field_simp
      ring
    have h3 : |(c : ℚ) - p| * 4000 / 2 ^ 53 / |(p : ℚ)| < 1 / 2 / |(p : ℚ)| := by
      apply div_lt_div_of_pos_right _ hpos
      have h53 : (2 : ℚ) ^ 53 = 9007199254740992 := by norm_num
      rw [h53]
      have : |(c : ℚ) - p| * 4000 ≤ 10 ^ 12 * 4000 :=
        mul_le_mul_of_nonneg_right hale (by norm_num)
      rw [div_lt_iff₀ (by norm_num)]
      norm_num at this ⊢
      linarith
    have h4 : (1 : ℚ) / ((2 * p.natAbs : ℕ) : ℚ) = 1 / 2 / |(p : ℚ)| := by
      rw [hpn]
      push_cast
      field_simp
    rw [h4]
    linarith
  · exact toFixed_rounded _ _

theorem fl_10 : fl 10 = 10 := by
  apply fl_exact _ 3 5629499534213120 <;> norm_num [abs_of_nonneg]

theorem fl_neg_10 : fl (-10) = -10 := by
  apply fl_exact _ 3 (-5629499534213120) <;> norm_num [abs_of_neg]

theorem fl_3 : fl 3 = 3 := by
  apply fl_exact _ 1 6755399441055744 <;> norm_num [abs_of_nonneg]

theorem fl_tenth : fl (1 / 10) = 7205759403792794 * 2 ^ (-4 - 52 : ℤ) := by
  apply fl_eval <;> norm_num [abs_of_nonneg, abs_lt]

theorem fl_neg_tenth : fl (-1 / 10) = -7205759403792794 * 2 ^ (-4 - 52 : ℤ) := by
  have h := fl_eval (-1 / 10) (-4) (-7205759403792794)
    (by norm_num [abs_of_neg]) (by norm_num [abs_of_neg]) (by norm_num [abs_lt])
  rw [h]
  push_cast
  ring

theorem fl_tenth_100 : fl (7205759403792794 * 2 ^ (-4 - 52 : ℤ) * 100) = 10 := by
  have h := fl_eval (7205759403792794 * 2 ^ (-4 - 52 : ℤ) * 100) 3 5629499534213120
    (by norm_num [abs_of_nonneg]) (by norm_num [abs_of_nonneg]) (by norm_num [abs_lt])
  rw [h]
  norm_num

theorem fl_neg_tenth_100 : fl (-7205759403792794 * 2 ^ (-4 - 52 : ℤ) * 100) = -10 := by
  have h := fl_eval (-7205759403792794 * 2 ^ (-4 - 52 : ℤ) * 100) 3 (-5629499534213120)
    (by norm_num [abs_of_neg]) (by norm_num [abs_of_neg]) (by norm_num [abs_lt])
  rw [h]
  norm_num

theorem fl_3_2000 : fl (3 / 2000) = 6917529027641082 * 2 ^ (-10 - 52 : ℤ) := by
  apply fl_eval <;> norm_num [abs_of_nonneg, abs_lt]

theorem fl_3_2000_100 :
    fl (6917529027641082 * 2 ^ (-10 - 52 : ℤ) * 100) =
      5404319552844595 * 2 ^ (-3 - 52 : ℤ) := by
  apply fl_eval <;> norm_num [abs_of_nonneg, abs_lt]

theorem changeValue_110_100 : changeValue 110 100 = 10 := by
  have e1 : (110 : ℚ) - 100 = 10 := by norm_num
  have e2 : |(100 : ℚ)| = 100 := abs_of_pos (by norm_num)
  have e3 : (10 : ℚ) / 100 = 1 / 10 := by norm_num
  rw [changeValue, e1, e2, fl_10, e3, fl_tenth, fl_tenth_100]

theorem changeValue_90_100 : changeValue 90 100 = -10 := by
  have e1 : (90 : ℚ) - 100 = -10 := by norm_num
  have e2 : |(100 : ℚ)| = 100 := abs_of_pos (by norm_num)
  have e3 : (-10 : ℚ) / 100 = -1 / 10 := by norm_num
  rw [changeValue, e1, e2, fl_neg_10, e3, fl_neg_tenth, fl_neg_tenth_100]

theorem changeValue_2003_2000 :
    changeValue 2003 2000 = 5404319552844595 * 2 ^ (-3 - 52 : ℤ) := by
  have e1 : (2003 : ℚ) - 2000 = 3 := by norm_num
  have e2 : |(2000 : ℚ)| = 2000 := abs_of_pos (by norm_num)
  rw [changeValue, e1, e2, fl_3, fl_3_2000, fl_3_2000_100]

theorem toFixed_10_0 : toFixed 10 1 = "10.0" := by
  have h : roundHalfUp 10 1 = 100 := by
    apply roundHalfUp_eval <;> norm_num
  have hs : ¬ ((10 : ℚ) < 0) := by norm_num
  simp only [toFixed, h, hs, if_false]
  decide

theorem toFixed_neg_10_0 : toFixed (-10) 1 = "-10.0" := by
  have h : roundHalfUp (-10) 1 = 100 := by
    apply roundHalfUp_eval <;> norm_num
  have hs : ((-10 : ℚ) < 0) := by norm_num
  simp only [toFixed, h, hs, if_true]
  decide

/-- C19: `changePct` never divides by zero (the checked division always
succeeds); it returns null when `prevVal` is 0 or absent and when `curr` is 0
or absent.  For every other pair of numbers it returns the text of
`100 * (curr - prevVal) / |prevVal|`, as the three arithmetic steps compute
it (within four parts in `2^53` of the exact percentage, and with the sign of
`curr - prevVal`), rounded to one decimal; the text carries a minus sign
exactly when `curr < prevVal`.  For integers that differ by at most `10^12`
the text is the exact percentage rounded to one decimal.  From 100 to 110
gives "10.0", from 100 to 90 gives "-10.0" and from 2000 to 2003 gives
"0.1". -/
theorem changePct_spec (F : NumberFormat) (curr prevVal : Option JSNum) :
    (∃ r, changePct F curr prevVal = .ok r) ∧
    (prevVal = none ∨ prevVal = some (.fin 0) → changePct F curr prevVal = .ok none) ∧
    (curr = none ∨ curr = some (.fin 0) → changePct F curr prevVal = .ok none) ∧
    (∀ c p : ℚ, c ≠ 0 → p ≠ 0 →
      changePct F (some (.fin c)) (some (.fin p)) =
        .ok (some (F.toFixed (changeValue c p) 1))) ∧
    (∀ c p : ℚ, c ≠ 0 → p ≠ 0 →
      ∃ t, changePct jsFormat (some (.fin c)) (some (.fin p)) = .ok (some t) ∧
        RoundedTo t (changeValue c p) 1 ∧ ('-' ∈ t.toList ↔ c < p)) ∧
    (∀ c p : ℚ, p ≠ 0 →
      abs (changeValue c p - 100 * (c - p) / |p|) ≤ |c - p| / |p| * 400 / 2 ^ 53) ∧
    (∀ c p : ℚ, p ≠ 0 →
      (0 < changeValue c p ↔ 0 < c - p) ∧
      (changeValue c p < 0 ↔ c - p < 0) ∧
      (changeValue c p = 0 ↔ c - p = 0)) ∧
    (∀ c p : ℤ, c ≠ 0 → p ≠ 0 → |c - p| ≤ 10 ^ 12 →
      ∃ t, changePct jsFormat (some (.fin c)) (some (.fin p)) = .ok (some t) ∧
        RoundedTo t (100 * ((c : ℚ) - p) / |(p : ℚ)|) 1) ∧
    changePct jsFormat (some (.fin 110)) (some (.fin 100)) = .ok (some "10.0") ∧
    changePct jsFormat (some (.fin 90)) (some (.fin 100)) = .ok (some "-10.0") ∧
    changePct jsFormat (some (.fin 2003)) (some (.fin 2000)) = .ok (some "0.1") := by
  refine ⟨changePct_never_fails F curr prevVal, ?_, ?_, changePct_numbers F, ?_,
    changeValue_close, changeValue_sign, ?_, ?_, ?_, ?_⟩
  · rintro (h | h) <;> subst h <;> simp [changePct, optTruthy, JSNum.truthy]
  · rintro (h | h) <;> subst h <;> simp [changePct, optTruthy, JSNum.truthy]
  · intro c p hc hp
    refine ⟨_, changePct_numbers jsFormat c p hc hp, toFixed_rounded _ _, ?_⟩
    simp only [jsFormat]
    rw [toFixed_minus, (changeValue_sign c p hp).2.1]
    exact sub_neg
  · intro c p hc hp hcp
    have hcq : (c : ℚ) ≠ 0 := by exact_mod_cast hc
    have hpq : (p : ℚ) ≠ 0 := by exact_mod_cast hp
    exact ⟨_, changePct_numbers jsFormat c p hcq hpq, changePct_exact c p hp hcp⟩
  · rw [changePct_numbers _ _ _ (by norm_num) (by norm_num)]
    simp only [jsFormat, changeValue_110_100, toFixed_10_0]
  · rw [changePct_numbers _ _ _ (by norm_num) (by norm_num)]
    simp only [jsFormat, changeValue_90_100, toFixed_neg_10_0]
  · rw [changePct_numbers _ _ _ (by norm_num) (by norm_num)]
    simp only [jsFormat, changeValue_2003_2000, toFixed_0_15]

end FandO
